import Mathlib

/-!
# ezgo: post-build DLL dependency resolution

A shallow embedding of `pkg/ezgo.go` (`GetDependencies`, `HandlePostBuild`,
`copyFile`) and of the build-flag handling of `main.go`, with the theorems
that settle the specification's claims about them.

Modelling conventions

* A Go `string` is the list of its runes (`Str`); text is taken to be valid UTF-8.
* A Go `map[string]bool` whose stored values are all `true` is the duplicate-free
  list of its keys (`StrSet`).  Whenever the program ranges over such a map the
  keys are enumerated in the order chosen by a `MapOrder`, an arbitrary
  permutation per `range` statement.
* The operating system is a `World`: the output of the dump tool per binary, the
  files present (a finite table from path to content, together with the identity
  of the file a path names, since one file can have several spellings) and the
  I/O failures of `os.Open`, `os.Create` and `io.Copy`.
* Library functions whose tables are not part of the repository
  (`unicode.ToLower`, `path/filepath`) are the fields of a `Platform`; every
  general theorem holds for all platforms.
-/

namespace Ezgo

/-! ## Strings -/

/-- Go `string`: the sequence of its runes. -/
abbrev Str := List Char

/-- Go `map[string]bool` with only `true` values: the list of its keys. -/
abbrev StrSet := List Str

/-- Library functions that depend on tables outside the repository. -/
structure Platform where
  /-- Go `unicode.ToLower`. -/
  toLowerRune : Char → Char
  /-- Go `filepath.Join` of the listed elements. -/
  join : List Str → Str
  /-- Go `filepath.Dir`. -/
  dir : Str → Str
  /-- Go `filepath.Base`. -/
  base : Str → Str
  /-- Go `filepath.IsAbs`. -/
  isAbs : Str → Bool

/-- Go `unicode.IsSpace`. -/
def isSpace (c : Char) : Bool :=
  let n := c.toNat
  (9 ≤ n && n ≤ 13) || n == 0x20 || n == 0x85 || n == 0xA0 || n == 0x1680 ||
  (0x2000 ≤ n && n ≤ 0x200A) || n == 0x2028 || n == 0x2029 || n == 0x202F ||
  n == 0x205F || n == 0x3000

/-- Go `strings.TrimSpace`. -/
def TrimSpace (s : Str) : Str :=
  ((s.dropWhile isSpace).reverse.dropWhile isSpace).reverse

/-- Go `strings.HasPrefix`. -/
def HasPrefix (s pre : Str) : Bool := pre.isPrefixOf s

/-- Go `strings.TrimPrefix`. -/
def TrimPrefix (s pre : Str) : Str :=
  if HasPrefix s pre then s.drop pre.length else s

/-- Go `strings.ToLower`: `unicode.ToLower` applied to every rune. -/
def ToLower (P : Platform) (s : Str) : Str := s.map P.toLowerRune

/-- Go `len(s)`: the number of bytes of the UTF-8 encoding. -/
def byteLen (s : Str) : Nat := (s.map Char.utf8Size).sum

/-- Go `bufio.MaxScanTokenSize`, the buffer limit of a default `bufio.Scanner`. -/
def MaxScanTokenSize : Nat := 64 * 1024

/-- The segments of `s` between line feeds (always at least one segment). -/
def splitLF : Str → List Str
  | [] => [[]]
  | c :: rest =>
    if c = '\n' then [] :: splitLF rest
    else match splitLF rest with
      | [] => [[c]]
      | l :: ls => (c :: l) :: ls

/-- The candidate tokens of `bufio.ScanLines`: every segment that ends in a line
feed, and the final unterminated segment when it is not empty. -/
def rawLines (s : Str) : List Str :=
  let segs := splitLF s
  if segs.getLast? = some [] then segs.dropLast else segs

/-- The `dropCR` helper of `bufio.ScanLines`: one trailing carriage return is removed. -/
def dropCR (l : Str) : Str :=
  if l.getLast? = some '\r' then l.dropLast else l

/-- The lines delivered by `for scanner.Scan() { ... scanner.Text() ... }` on a
default `bufio.Scanner` with `bufio.ScanLines`: `Scan` returns `false` at the end
of the input and also, with `ErrTooLong`, at the first line that does not fit
the buffer (`MaxScanTokenSize` bytes or more before its line feed). -/
def scanLines (s : Str) : List Str :=
  ((rawLines s).takeWhile (fun l => decide (byteLen l < MaxScanTokenSize))).map dropCR

/-! ## GetDependencies -/

/-- The keys of `systemDLLs`. -/
def systemDLLNames : List Str :=
  ["advapi32.dll".data, "comdlg32.dll".data, "gdi32.dll".data,
   "kernel32.dll".data, "msvcrt.dll".data, "ole32.dll".data,
   "oleaut32.dll".data, "shell32.dll".data, "user32.dll".data,
   "winmm.dll".data, "ws2_32.dll".data, "ntdll.dll".data,
   "rpcrt4.dll".data, "shlwapi.dll".data]

/-- The lookup `systemDLLs[name]` (`false` for an absent key). -/
def systemDLLs (name : Str) : Bool := decide (name ∈ systemDLLNames)

/-- The assignment `m[k] = true` on a set-like map. -/
def mapSet (m : StrSet) (k : Str) : StrSet := if k ∈ m then m else m ++ [k]

/-- The marker looked for by `GetDependencies`. -/
def dllMarker : Str := "DLL Name:".data

/-- The body of the scanning loop of `GetDependencies` for one scanned line. -/
def scanStep (P : Platform) (deps : StrSet) (text : Str) : StrSet :=
  let line := TrimSpace text
  if HasPrefix line dllMarker then
    let dllName := TrimSpace (TrimPrefix line dllMarker)
    if !systemDLLs (ToLower P dllName) then mapSet deps dllName else deps
  else deps

/-- The part of `GetDependencies` after the tool has run: the scan of its output. -/
def parseDeps (P : Platform) (out : Str) : StrSet :=
  (scanLines out).foldl (scanStep P) []

/-- The scanned lines of a tool output that carry the marker, the only lines
`GetDependencies` reads a name from. -/
def markerLines (out : Str) : List Str :=
  (scanLines out).filter (fun l => HasPrefix (TrimSpace l) dllMarker)

/-! ## The world outside the program -/

/-- The bytes of a file. -/
abbrev Content := List Nat

/-- The files present: a finite table from path to content, and the identity of
the file a path names. -/
structure FS where
  /-- The identity of the file named by a path: two paths name the same file
  exactly when their keys are equal (on Windows, spellings that differ in letter
  case name one file). -/
  key : Str → Str
  /-- The entries, most recent first; the first entry whose path names a file is
  the current one for that file. -/
  files : List (Str × Content)

/-- The content of the first entry of `files` whose path has the key `k`. -/
def FS.lookup (key : Str → Str) : List (Str × Content) → Str → Option Content
  | [], _ => none
  | (p, c) :: rest, k => if key p = k then some c else FS.lookup key rest k

/-- The content of the file named by `path`, if there is one. -/
def FS.read (fs : FS) (path : Str) : Option Content :=
  FS.lookup fs.key fs.files (fs.key path)

/-- The files after the file named by `path` has been given content `c`. -/
def FS.write (fs : FS) (path : Str) (c : Content) : FS :=
  { fs with files := (path, c) :: fs.files }

/-- Whether `os.Stat(path)` returns a nil error. -/
def FS.stat (fs : FS) (path : Str) : Bool := (fs.read path).isSome

/-- What the program observes of its surroundings. -/
structure World where
  /-- Result of `os.Getwd()` (the empty string when it fails). -/
  cwd : Str
  /-- Standard output of `objdumpPath -p binaryPath`; `none` when `cmd.Output()`
  returns an error. -/
  objdump : Str → Str → Option Str
  /-- The files present when `HandlePostBuild` is called. -/
  fs : FS
  /-- Whether `os.Open(path)` fails on a path that is present. -/
  openFails : Str → Bool
  /-- Whether `os.Create(path)` fails. -/
  createFails : Str → Bool
  /-- When `some n`: `io.Copy` into `path` fails after `n` bytes have been written. -/
  copyLimit : Str → Option Nat
  /-- What the tool reports depends on the file, not on the spelling of its path:
  for two paths naming one file it succeeds on both or on neither, with the same
  marker lines. -/
  objdump_sameFile : ∀ tool a b, fs.key a = fs.key b →
    (objdump tool a).map markerLines = (objdump tool b).map markerLines

/-- The order in which `range` enumerates the keys of a map: the `k`-th `range`
statement over a map executed by a call enumerates the keys `m` as `enum k m`. -/
structure MapOrder where
  enum : Nat → StrSet → List Str
  perm : ∀ k m, (enum k m).Perm m

/-- The fields of `CGOEnvironment` (`EnvPath` is promoted from the embedded
`jumpboot.Environment`). -/
structure CGOEnvironment where
  EnvPath : Str
  CompilerBinPath : Str
  ToolBinPath : Str
  FullBinPath : Str
  IncludePath : Str
  LibPath : Str

/-- The errors returned by `HandlePostBuild`. -/
inductive Err
  /-- Wraps "failed to run objdump on binaryPath". -/
  | objdump (binaryPath : Str)
  /-- Wraps "failed to copy DLL dll". -/
  | copyDLL (dll : Str)
  deriving DecidableEq, Repr

/-- The lines logged by `HandlePostBuild`. -/
inductive Msg
  /-- "Build successful. Skipping DLL copy due to -no-copy flag." -/
  | skipping
  /-- "warning: could not analyze dependencies for dll". -/
  | cannotAnalyze (dll : Str)
  /-- "Found n required DLL(s). Copying to destDir". -/
  | found (n : Nat) (destDir : Str)
  /-- "warning: could not find required DLL dll". -/
  | notFound (dll : Str)
  /-- "Copied n DLLs." -/
  | copied (n : Nat)
  deriving DecidableEq, Repr

/-- The function `GetDependencies`: run the tool, fail when it fails, else scan its output. -/
def GetDependencies (P : Platform) (w : World) (binaryPath objdumpPath : Str) :
    Except Err StrSet :=
  match w.objdump objdumpPath binaryPath with
  | none => .error (.objdump binaryPath)
  | some out => .ok (parseDeps P out)

/-! ## copyFile -/

/-- The function `copyFile`: open the source, create (truncate) the destination,
then stream what the source holds at that moment into the destination.  Returns
the files afterwards and whether the returned error is nil. -/
def copyFile (w : World) (fs : FS) (src dst : Str) : FS × Bool :=
  match fs.read src with
  | none => (fs, false)
  | some _ =>
    if w.openFails src then (fs, false)
    else if w.createFails dst then (fs, false)
    else
      let fs1 := fs.write dst []
      let data := (fs1.read src).getD []
      match w.copyLimit dst with
      | none => (fs1.write dst data, true)
      | some n =>
        if data.length ≤ n then (fs1.write dst data, true)
        else (fs1.write dst (data.take n), false)

/-! ## HandlePostBuild -/

/-- Lines 89-95: the value of the first `-o` that has a following argument. -/
def outputFlag : List Str → Str
  | arg :: next :: rest => if arg = "-o".data then next else outputFlag (next :: rest)
  | _ => []

/-- Lines 89-103: the path of the build output. -/
def outputPathOf (P : Platform) (w : World) (args : List Str) : Str :=
  let outputPath := outputFlag args
  let outputPath :=
    if outputPath = [] then P.join [w.cwd, P.base w.cwd ++ ".exe".data] else outputPath
  if !P.isAbs outputPath then P.join [w.cwd, outputPath] else outputPath

/-- Lines 125-128: the search directories, in order. -/
def searchPathsOf (P : Platform) (cgoEnv : CGOEnvironment) : List Str :=
  [P.join [cgoEnv.EnvPath, "Library".data, "bin".data], cgoEnv.ToolBinPath]

/-- Lines 140-147: the path of `dll` in the first search directory that has it,
the empty string when none has. -/
def findDLL (P : Platform) (fs : FS) (searchPaths : List Str) (dll : Str) : Str :=
  match searchPaths with
  | [] => []
  | p :: rest =>
    if fs.stat (P.join [p, dll]) then P.join [p, dll] else findDLL P fs rest dll

/-- The local variables of the traversal together with a record of its effects. -/
structure Traversal where
  dllsToProcess : List Str
  allRequiredDLLs : StrSet
  processedDLLs : StrSet
  /-- Number of `range` statements over a map executed so far. -/
  ranges : Nat
  /-- The calls of `GetDependencies` made so far, oldest first: the library name
  (`none` for the build output) and the `binaryPath` argument. -/
  inspected : List (Option Str × Str)
  /-- The lines logged so far, oldest first. -/
  logs : List Msg

/-- Lines 118-123 and 163-168: add the names not yet required to the set and the queue. -/
def addDeps (s : Traversal) : List Str → Traversal
  | [] => s
  | d :: ds =>
    if d ∈ s.allRequiredDLLs then addDeps s ds
    else addDeps { s with allRequiredDLLs := mapSet s.allRequiredDLLs d,
                          dllsToProcess := s.dllsToProcess ++ [d] } ds

/-- One iteration of the loop of lines 131-169 (the identity when the queue is empty). -/
def step (P : Platform) (w : World) (o : MapOrder) (objdumpPath : Str)
    (searchPaths : List Str) (isQuiet : Bool) (s : Traversal) : Traversal :=
  match s.dllsToProcess with
  | [] => s
  | dll :: rest =>
    let s := { s with dllsToProcess := rest }
    if dll ∈ s.processedDLLs then s
    else
      let s := { s with processedDLLs := mapSet s.processedDLLs dll }
      let dllPath := findDLL P w.fs searchPaths dll
      if dllPath = [] then s
      else
        let s := { s with inspected := s.inspected ++ [(some dll, dllPath)] }
        match GetDependencies P w dllPath objdumpPath with
        | .error _ =>
          if !isQuiet then { s with logs := s.logs ++ [Msg.cannotAnalyze dll] } else s
        | .ok transitiveDeps =>
          addDeps { s with ranges := s.ranges + 1 } (o.enum s.ranges transitiveDeps)

/-- The loop of lines 131-169, run for at most `fuel` iterations. -/
def loop (P : Platform) (w : World) (o : MapOrder) (objdumpPath : Str)
    (searchPaths : List Str) (isQuiet : Bool) : Nat → Traversal → Traversal
  | 0, s => s
  | fuel + 1, s =>
    if s.dllsToProcess.length > 0 then
      loop P w o objdumpPath searchPaths isQuiet fuel
        (step P w o objdumpPath searchPaths isQuiet s)
    else s

/-- The names the dump tool reports for `binaryPath` (none when it fails). -/
def depsAt (P : Platform) (w : World) (objdumpPath binaryPath : Str) : StrSet :=
  match GetDependencies P w binaryPath objdumpPath with
  | .ok ds => ds
  | .error _ => []

/-- Every name the traversal can meet: what the tool reports for the build
output and for each file present. -/
def nameUniverse (P : Platform) (w : World) (objdumpPath outputPath : Str) : List Str :=
  depsAt P w objdumpPath outputPath ++
    w.fs.files.flatMap (fun e => depsAt P w objdumpPath e.1)

/-- A number of iterations after which the loop of lines 131-169 has always
finished (see `traverse_done`). -/
def iterationBound (P : Platform) (w : World) (objdumpPath outputPath : Str) : Nat :=
  (nameUniverse P w objdumpPath outputPath).length

/-- The variables of the copy phase together with a record of its effects. -/
structure Copying where
  fs : FS
  copiedCount : Nat
  /-- The calls of `copyFile` so far, oldest first: library name, source,
  destination, and whether the call returned a nil error. -/
  copies : List (Str × Str × Str × Bool)
  logs : List Msg

/-- Lines 179-190 for one library: try the search directories in order; the
result carries `false` when `copyFile` failed. -/
def copyOne (P : Platform) (w : World) (destDir dll : Str) (isQuiet : Bool) (c : Copying) :
    List Str → Copying × Bool
  | [] => (if !isQuiet then { c with logs := c.logs ++ [Msg.notFound dll] } else c, true)
  | searchPath :: rest =>
    let srcFile := P.join [searchPath, dll]
    if c.fs.stat srcFile then
      let destFile := P.join [destDir, dll]
      let r := copyFile w c.fs srcFile destFile
      ({ c with fs := r.1, copies := c.copies ++ [(dll, srcFile, destFile, r.2)],
                copiedCount := if r.2 then c.copiedCount + 1 else c.copiedCount }, r.2)
    else copyOne P w destDir dll isQuiet c rest

/-- Lines 177-194: the copy loop over the enumerated names; stops with the
error of the first failed `copyFile`. -/
def copyAll (P : Platform) (w : World) (searchPaths : List Str) (destDir : Str)
    (isQuiet : Bool) (c : Copying) : List Str → Copying × Option Err
  | [] => (c, none)
  | dll :: rest =>
    let r := copyOne P w destDir dll isQuiet c searchPaths
    if r.2 then copyAll P w searchPaths destDir isQuiet r.1 rest
    else (r.1, some (.copyDLL dll))

/-- What a call of `HandlePostBuild` returns and does. -/
structure Outcome where
  /-- The returned error (`none` for nil). -/
  err : Option Err
  /-- The files after the call. -/
  fs : FS
  /-- The value of `allRequiredDLLs` when the call returns (empty if never filled). -/
  allRequiredDLLs : StrSet
  /-- The calls of `GetDependencies`, oldest first. -/
  inspected : List (Option Str × Str)
  /-- The calls of `copyFile`, oldest first. -/
  copies : List (Str × Str × Str × Bool)
  /-- The lines logged, oldest first. -/
  logs : List Msg

/-- The objdump path computed at line 106. -/
def objdumpPathOf (P : Platform) (cgoEnv : CGOEnvironment) : Str :=
  P.join [cgoEnv.CompilerBinPath, "objdump.exe".data]

/-- The traversal state after the seeding of lines 109-123. -/
def seed (o : MapOrder) (outputPath : Str) (initialDeps : StrSet) : Traversal :=
  addDeps { dllsToProcess := [], allRequiredDLLs := [], processedDLLs := [], ranges := 1,
            inspected := [(none, outputPath)], logs := [] } (o.enum 0 initialDeps)

/-- Lines 105-169: the traversal state when the loop is left. -/
def traverse (P : Platform) (w : World) (o : MapOrder) (cgoEnv : CGOEnvironment)
    (isQuiet : Bool) (outputPath : Str) (initialDeps : StrSet) : Traversal :=
  let objdumpPath := objdumpPathOf P cgoEnv
  loop P w o objdumpPath (searchPathsOf P cgoEnv) isQuiet
    (iterationBound P w objdumpPath outputPath) (seed o outputPath initialDeps)

/-- Lines 171-176: the state in which the copy loop starts, after the line that
reports the number of libraries found. -/
def copyStart (w : World) (isQuiet : Bool) (destDir : Str) (t : Traversal) : Copying :=
  { fs := w.fs, copiedCount := 0, copies := [],
    logs := if !isQuiet then
      t.logs ++ [Msg.found t.allRequiredDLLs.length destDir] else t.logs }

/-- The function `HandlePostBuild`. -/
def HandlePostBuild (P : Platform) (w : World) (o : MapOrder) (args : List Str)
    (cgoEnv : CGOEnvironment) (isQuiet skipCopy : Bool) : Outcome :=
  if skipCopy then
    { err := none, fs := w.fs, allRequiredDLLs := [], inspected := [], copies := [],
      logs := if !isQuiet then [Msg.skipping] else [] }
  else
    let outputPath := outputPathOf P w args
    let destDir := P.dir outputPath
    let objdumpPath := objdumpPathOf P cgoEnv
    match GetDependencies P w outputPath objdumpPath with
    | .error e =>
      { err := some e, fs := w.fs, allRequiredDLLs := [], inspected := [(none, outputPath)],
        copies := [], logs := [] }
    | .ok initialDeps =>
      let t := traverse P w o cgoEnv isQuiet outputPath initialDeps
      let r := copyAll P w (searchPathsOf P cgoEnv) destDir isQuiet
        (copyStart w isQuiet destDir t) (o.enum t.ranges t.allRequiredDLLs)
      match r.2 with
      | some e =>
        { err := some e, fs := r.1.fs, allRequiredDLLs := t.allRequiredDLLs,
          inspected := t.inspected, copies := r.1.copies, logs := r.1.logs }
      | none =>
        { err := none, fs := r.1.fs, allRequiredDLLs := t.allRequiredDLLs,
          inspected := t.inspected, copies := r.1.copies,
          logs := if !isQuiet && r.1.copiedCount > 0 then
            r.1.logs ++ [Msg.copied r.1.copiedCount] else r.1.logs }

/-! ## The build flags of `main` -/

/-- Lines 79-86 of `main.go`: the loop that filters `-no-copy`, from the state
`(skipCopy, filteredArgs)`. -/
def filterNoCopy : Bool × List Str → List Str → Bool × List Str
  | acc, [] => acc
  | (skipCopy, filteredArgs), arg :: rest =>
    if arg = "-no-copy".data then filterNoCopy (true, filteredArgs) rest
    else filterNoCopy (skipCopy, filteredArgs ++ [arg]) rest

/-- Lines 75-88 of `main.go`: `(finalArgs, isBuildCommand, skipCopy)`. -/
def buildFlags (args : List Str) : List Str × Bool × Bool :=
  let isBuildCommand := decide (args.head? = some "build".data)
  if isBuildCommand then
    let r := filterNoCopy (false, []) args
    (r.2, isBuildCommand, r.1)
  else (args, isBuildCommand, false)

/-! ## Notions used to state the properties -/

/-- The line `text` declares the library `n`, and `n` is not a system DLL. -/
def DeclaresDep (P : Platform) (n text : Str) : Prop :=
  HasPrefix (TrimSpace text) dllMarker = true ∧
  n = TrimSpace (TrimPrefix (TrimSpace text) dllMarker) ∧
  systemDLLs (ToLower P n) = false

/-- Every line of the output fits the scanner's buffer. -/
def LinesFit (out : Str) : Prop := ∀ l ∈ splitLF out, byteLen l < MaxScanTokenSize

/-- The direct dependencies the traversal obtains for the library `dll`: those
reported for its file in the first search directory that has it, when there is
such a file and its inspection succeeds. -/
def libDeps (P : Platform) (w : World) (objdumpPath : Str) (searchPaths : List Str)
    (dll : Str) : Option StrSet :=
  if findDLL P w.fs searchPaths dll = [] then none
  else match GetDependencies P w (findDLL P w.fs searchPaths dll) objdumpPath with
    | .ok ds => some ds
    | .error _ => none

/-- A set of names that holds the direct dependencies `rootDeps` of the build
output and, with each member whose direct dependencies `deps` are obtained,
those dependencies. -/
def Closed (rootDeps : StrSet) (deps : Str → Option StrSet) (S : Str → Prop) : Prop :=
  (∀ d ∈ rootDeps, S d) ∧ ∀ m, S m → ∀ ds, deps m = some ds → ∀ d ∈ ds, S d

/-- The names of the libraries for which `GetDependencies` was called. -/
def inspectedNames (l : List (Option Str × Str)) : List Str := l.filterMap (fun e => e.1)

/-- What holds of the traversal state before and after every iteration. -/
structure Inv (P : Platform) (w : World) (objdumpPath : Str) (searchPaths : List Str)
    (rootDeps : StrSet) (s : Traversal) : Prop where
  nodup : s.allRequiredDLLs.Nodup
  queue_sub : ∀ x ∈ s.dllsToProcess, x ∈ s.allRequiredDLLs
  root_sub : ∀ x ∈ rootDeps, x ∈ s.allRequiredDLLs
  pending : ∀ x ∈ s.allRequiredDLLs, x ∈ s.dllsToProcess ∨ x ∈ s.processedDLLs
  handled : ∀ x ∈ s.processedDLLs, ∀ ds, libDeps P w objdumpPath searchPaths x = some ds →
    ∀ d ∈ ds, d ∈ s.allRequiredDLLs
  least : ∀ S : Str → Prop, Closed rootDeps (libDeps P w objdumpPath searchPaths) S →
    ∀ x ∈ s.allRequiredDLLs, S x
  insp_nodup : (inspectedNames s.inspected).Nodup
  insp_sub : ∀ x ∈ inspectedNames s.inspected, x ∈ s.processedDLLs
  insp_path : ∀ dll path, (some dll, path) ∈ s.inspected →
    path = findDLL P w.fs searchPaths dll ∧ path ≠ []
  insp_all : ∀ x ∈ s.processedDLLs, findDLL P w.fs searchPaths x ≠ [] →
    x ∈ inspectedNames s.inspected

/-! ## Concrete platform and worlds for the examples -/

/-- A platform for evaluating examples: ASCII lower-casing, and joining by a
backslash, which is what `filepath` does on Windows for clean path elements. -/
def asciiPlatform : Platform where
  toLowerRune := Char.toLower
  join := fun parts => "\\".data.intercalate (parts.filter (fun e => e != []))
  dir := fun p => ((p.reverse.dropWhile (fun c => c != '\\')).drop 1).reverse
  base := fun p => (p.reverse.takeWhile (fun c => c != '\\')).reverse
  isAbs := fun p => decide ((p.drop 1).take 2 = [':', '\\'])

/-- The order that enumerates keys as stored. -/
def orderId : MapOrder where
  enum := fun _ m => m
  perm := fun _ _ => List.Perm.refl _

/-- The order that enumerates keys in reverse. -/
def orderRev : MapOrder where
  enum := fun _ m => m.reverse
  perm := fun _ m => List.reverse_perm m

/-- A toolchain whose environment is `E:\env`. -/
def demoEnv : CGOEnvironment where
  EnvPath := "E:\\env".data
  CompilerBinPath := "E:\\mingw\\bin".data
  ToolBinPath := "E:\\tool".data
  FullBinPath := []
  IncludePath := []
  LibPath := []

/-- File identity in the example worlds: Windows path names that differ only in
the case of their (ASCII) letters name one file. -/
def windowsKey (path : Str) : Str := path.map Char.toLower

/-- A Windows world without I/O failures, given the dump-tool output per binary
and the files. -/
def demoWorld (dumps : List (Str × Str)) (files : List (Str × Content)) : World where
  cwd := "C:\\app".data
  objdump := fun _ binaryPath =>
    (dumps.find? (fun e => windowsKey e.1 == windowsKey binaryPath)).map (fun e => e.2)
  fs := { key := windowsKey, files := files }
  openFails := fun _ => false
  createFails := fun _ => false
  copyLimit := fun _ => none
  objdump_sameFile := fun _ a b h => by
    have h' : windowsKey a = windowsKey b := h
    simp only [h']

/-- The chain `app.exe -> a.dll -> b.dll -> c.dll`, all three in `E:\env\Library\bin`;
every binary also imports `kernel32.dll`, in varying case. -/
def chainWorld : World :=
  demoWorld
    [("C:\\app\\app.exe".data, "DLL Name: a.dll\nDLL Name: KERNEL32.dll\n".data),
     ("E:\\env\\Library\\bin\\a.dll".data, "DLL Name: b.dll\nDLL Name: kernel32.dll\n".data),
     ("E:\\env\\Library\\bin\\b.dll".data, "DLL Name: c.dll\nDLL Name: Kernel32.DLL\n".data),
     ("E:\\env\\Library\\bin\\c.dll".data, "DLL Name: KERNEL32.dll\n".data)]
    [("E:\\env\\Library\\bin\\a.dll".data, [1]), ("E:\\env\\Library\\bin\\b.dll".data, [2]),
     ("E:\\env\\Library\\bin\\c.dll".data, [3])]

/-- The cycle `app.exe -> a.dll -> b.dll -> a.dll`, both libraries in `E:\env\Library\bin`. -/
def cycleWorld : World :=
  demoWorld
    [("C:\\app\\app.exe".data, "DLL Name: a.dll\n".data),
     ("E:\\env\\Library\\bin\\a.dll".data, "DLL Name: b.dll\n".data),
     ("E:\\env\\Library\\bin\\b.dll".data, "DLL Name: a.dll\n".data)]
    [("E:\\env\\Library\\bin\\a.dll".data, [1]), ("E:\\env\\Library\\bin\\b.dll".data, [2])]

/-- A tool output that names one library in two casings. -/
def mixedCaseOutput : Str := "DLL Name: Foo.dll\nDLL Name: foo.dll\n".data

/-- The build output imports `Foo.dll`, whose file imports `foo.dll`. -/
def mixedCaseWorld : World :=
  demoWorld
    [("C:\\app\\app.exe".data, "DLL Name: Foo.dll\n".data),
     ("E:\\env\\Library\\bin\\Foo.dll".data, "DLL Name: foo.dll\n".data)]
    [("E:\\env\\Library\\bin\\Foo.dll".data, [1])]

/-- A tool output whose first line is `MaxScanTokenSize` bytes long and whose
second line declares `foo.dll`. -/
def longLineOutput : Str :=
  List.replicate MaxScanTokenSize 'a' ++ '\n' :: "DLL Name: foo.dll\n".data

/-- A world in which the dump tool prints `longLineOutput` for every binary. -/
def longLineWorld : World :=
  { demoWorld [] [] with
    objdump := fun _ _ => some longLineOutput
    objdump_sameFile := fun _ _ _ _ => rfl }

/-- The build output imports `a.dll` and `missing.dll`; `a.dll` is in
`E:\env\Library\bin` but the dump tool fails on it, `missing.dll` is nowhere. -/
def tolerantWorld : World :=
  demoWorld
    [("C:\\app\\app.exe".data, "DLL Name: a.dll\nDLL Name: missing.dll\n".data)]
    [("E:\\env\\Library\\bin\\a.dll".data, [1])]

/-- As `chainWorld`, but `os.Create` fails on `C:\app\b.dll`. -/
def createFailsWorld : World :=
  { chainWorld with createFails := fun p => decide (p = "C:\\app\\b.dll".data) }

/-- The dump tool fails on every binary. -/
def noToolWorld : World := demoWorld [] [("E:\\env\\Library\\bin\\a.dll".data, [1])]

/-- The build output `E:\env\Library\bin\app.exe` imports `a.dll`, which is in
`E:\env\Library\bin` with three bytes of content. -/
def selfCopyWorld : World :=
  demoWorld
    [("E:\\env\\Library\\bin\\app.exe".data, "DLL Name: a.dll\n".data)]
    [("E:\\env\\Library\\bin\\a.dll".data, [1, 2, 3])]

/-- The arguments `build -o E:\env\Library\bin\app.exe`. -/
def selfCopyArgs : List Str := ["build".data, "-o".data, "E:\\env\\Library\\bin\\app.exe".data]

/-- The build output `E:\tool\app.exe` imports `foo.dll`, which is in both
search directories with different content. -/
def shadowWorld : World :=
  demoWorld
    [("E:\\tool\\app.exe".data, "DLL Name: foo.dll\n".data)]
    [("E:\\env\\Library\\bin\\foo.dll".data, [1]), ("E:\\tool\\foo.dll".data, [2])]

/-- The arguments `build -o E:\tool\app.exe`. -/
def shadowArgs : List Str := ["build".data, "-o".data, "E:\\tool\\app.exe".data]

/-- The build output `C:\app\app.exe` imports `foo.dll`, which is in both
search directories with different content. -/
def priorityWorld : World :=
  demoWorld
    [("C:\\app\\app.exe".data, "DLL Name: foo.dll\n".data)]
    [("E:\\env\\Library\\bin\\foo.dll".data, [1]), ("E:\\tool\\foo.dll".data, [2])]

/-- No two entries are equal when compared case-insensitively. -/
def CaseInsensitiveUnique (P : Platform) (l : StrSet) : Prop :=
  ∀ a ∈ l, ∀ b ∈ l, ToLower P a = ToLower P b → a = b

/-- The property of `filepath.Join` that keeps the build output path absolute:
joining an element onto an absolute first element gives an absolute path. -/
def JoinKeepsAbs (P : Platform) : Prop :=
  ∀ a b : Str, P.isAbs a = true → P.isAbs (P.join [a, b]) = true

/-- The argument that follows the first `-o` having a following argument
decides the build output path, whatever that argument is: the path is that
argument when it is absolute, and that argument joined onto the current
directory otherwise. -/
def OutputFlagDecides (P : Platform) (w : World) (args : List Str) : Prop :=
  ∀ pre v post, "-o".data ∉ pre → args = pre ++ "-o".data :: v :: post →
    outputPathOf P w args = if P.isAbs v = true then v else P.join [w.cwd, v]

/-! ## Lemmas: scanning the tool output -/

theorem mem_mapSet {m : StrSet} {k x : Str} : x ∈ mapSet m k ↔ x ∈ m ∨ x = k := by
  unfold mapSet
  split
  · constructor
    · intro h; exact Or.inl h
    · rintro (h | h)
      · exact h
      · subst h; assumption
  · simp

theorem nodup_mapSet {m : StrSet} (k : Str) (h : m.Nodup) : (mapSet m k).Nodup := by
  unfold mapSet
  split
  · exact h
  · rename_i hk
    exact List.Nodup.append h (List.nodup_singleton k) (by simpa using hk)

theorem mem_scanStep {P : Platform} {deps : StrSet} {text n : Str} :
    n ∈ scanStep P deps text ↔ n ∈ deps ∨ DeclaresDep P n text := by
  unfold scanStep DeclaresDep
  by_cases h1 : HasPrefix (TrimSpace text) dllMarker = true
  · by_cases h2 : systemDLLs (ToLower P (TrimSpace (TrimPrefix (TrimSpace text) dllMarker))) = true
    · simp only [h1, h2, if_true, Bool.not_true, Bool.false_eq_true, if_false, true_and]
      constructor
      · intro h; exact Or.inl h
      · rintro (h | ⟨rfl, h⟩)
        · exact h
        · rw [h2] at h; exact absurd h (by simp)
    · have h2' : systemDLLs (ToLower P (TrimSpace (TrimPrefix (TrimSpace text) dllMarker))) = false := by
        simpa using h2
      simp only [h1, h2', if_true, Bool.not_false, true_and, mem_mapSet]
      constructor
      · rintro (h | h)
        · exact Or.inl h
        · exact Or.inr ⟨h, h ▸ h2'⟩
      · rintro (h | ⟨h, _⟩)
        · exact Or.inl h
        · exact Or.inr h
  · simp [h1]

theorem nodup_scanStep {P : Platform} {deps : StrSet} (text : Str) (h : deps.Nodup) :
    (scanStep P deps text).Nodup := by
  unfold scanStep
  simp only
  split
  · split
    · exact nodup_mapSet _ h
    · exact h
  · exact h

theorem mem_foldl_scanStep {P : Platform} (lines : List Str) (deps : StrSet) (n : Str) :
    n ∈ lines.foldl (scanStep P) deps ↔ n ∈ deps ∨ ∃ l ∈ lines, DeclaresDep P n l := by
  induction lines generalizing deps with
  | nil => simp
  | cons l ls ih =>
    rw [List.foldl_cons, ih, mem_scanStep]
    simp only [List.mem_cons, exists_eq_or_imp, or_assoc]

theorem nodup_foldl_scanStep {P : Platform} (lines : List Str) (deps : StrSet)
    (h : deps.Nodup) : (lines.foldl (scanStep P) deps).Nodup := by
  induction lines generalizing deps with
  | nil => exact h
  | cons l ls ih => exact ih _ (nodup_scanStep l h)

theorem parseDeps_nodup (P : Platform) (out : Str) : (parseDeps P out).Nodup :=
  nodup_foldl_scanStep _ _ List.nodup_nil

theorem mem_parseDeps {P : Platform} {out n : Str} :
    n ∈ parseDeps P out ↔ ∃ l ∈ scanLines out, DeclaresDep P n l := by
  unfold parseDeps
  rw [mem_foldl_scanStep]
  simp

theorem parseDeps_not_system {P : Platform} {out n : Str} (h : n ∈ parseDeps P out) :
    systemDLLs (ToLower P n) = false := by
  obtain ⟨_, _, hl⟩ := mem_parseDeps.mp h
  exact hl.2.2

theorem dropWhile_isSpace_concat (l : Str) (c : Char) (hc : isSpace c = true) :
    ((l ++ [c]).dropWhile isSpace).reverse.dropWhile isSpace =
      (l.dropWhile isSpace).reverse.dropWhile isSpace := by
  induction l with
  | nil => simp [List.dropWhile, hc]
  | cons a l ih =>
    by_cases ha : isSpace a = true
    · simpa [List.dropWhile, ha] using ih
    · have ha' : isSpace a = false := by simpa using ha
      simp [List.dropWhile, ha', hc]

theorem TrimSpace_dropCR (l : Str) : TrimSpace (dropCR l) = TrimSpace l := by
  unfold dropCR
  split
  · rename_i h
    have hl : l = l.dropLast ++ ['\r'] := by
      have := List.dropLast_append_getLast? '\r' (by simpa using h)
      exact this.symm
    unfold TrimSpace
    conv_rhs => rw [hl]
    rw [dropWhile_isSpace_concat _ _ (by decide)]
  · rfl

theorem declaresDep_dropCR {P : Platform} {n l : Str} :
    DeclaresDep P n (dropCR l) ↔ DeclaresDep P n l := by
  unfold DeclaresDep
  rw [TrimSpace_dropCR]

theorem not_declaresDep_nil (P : Platform) (n : Str) : ¬ DeclaresDep P n [] := by
  intro h
  exact absurd h.1 (by decide)

theorem splitLF_ne_nil (s : Str) : splitLF s ≠ [] := by
  cases s with
  | nil => simp [splitLF]
  | cons c rest =>
    unfold splitLF
    split
    · simp
    · split <;> simp

theorem splitLF_append_lf (l rest : Str) (hl : '\n' ∉ l) :
    splitLF (l ++ '\n' :: rest) = l :: splitLF rest := by
  induction l with
  | nil => simp [splitLF]
  | cons a l ih =>
    have ha : a ≠ '\n' := fun h => hl (by simp [h])
    have hl' : '\n' ∉ l := fun h => hl (by simp [h])
    simp [splitLF, ha, ih hl']

theorem mem_rawLines_of_mem_splitLF {s l : Str} (h : l ∈ splitLF s) (hne : l ≠ []) :
    l ∈ rawLines s := by
  unfold rawLines
  simp only
  split
  · rename_i hlast
    have := List.dropLast_append_getLast? _ hlast
    rw [← this] at h
    rcases List.mem_append.mp h with h | h
    · exact h
    · simp at h; exact absurd h hne
  · exact h

theorem mem_splitLF_of_mem_rawLines {s l : Str} (h : l ∈ rawLines s) : l ∈ splitLF s := by
  unfold rawLines at h
  simp only at h
  split at h
  · exact List.mem_of_mem_dropLast h
  · exact h

theorem scanLines_of_linesFit {out : Str} (h : LinesFit out) :
    scanLines out = (rawLines out).map dropCR := by
  unfold scanLines
  congr 1
  rw [List.takeWhile_eq_self_iff]
  intro l hl
  simpa using h l (mem_splitLF_of_mem_rawLines hl)

/-- When every line of the tool output fits the scanner's buffer, the scan
yields exactly the names declared by some line of the output (a segment between
line feeds) that are not system DLLs. -/
theorem mem_parseDeps_of_linesFit {P : Platform} {out : Str} (h : LinesFit out) (n : Str) :
    n ∈ parseDeps P out ↔ ∃ l ∈ splitLF out, DeclaresDep P n l := by
  rw [mem_parseDeps, scanLines_of_linesFit h]
  constructor
  · rintro ⟨l, hl, hd⟩
    obtain ⟨l0, hl0, rfl⟩ := List.mem_map.mp hl
    exact ⟨l0, mem_splitLF_of_mem_rawLines hl0, declaresDep_dropCR.mp hd⟩
  · rintro ⟨l, hl, hd⟩
    have hne : l ≠ [] := fun h0 => not_declaresDep_nil P n (h0 ▸ hd)
    exact ⟨dropCR l, List.mem_map.mpr ⟨l, mem_rawLines_of_mem_splitLF hl hne, rfl⟩,
      declaresDep_dropCR.mpr hd⟩

theorem byteLen_replicate_a (k : Nat) : byteLen (List.replicate k 'a') = k := by
  induction k with
  | zero => rfl
  | succ k ih =>
    have h1 : Char.utf8Size 'a' = 1 := by decide
    unfold byteLen at ih ⊢
    rw [List.replicate_succ, List.map_cons, List.sum_cons, ih, h1]
    omega

theorem scanLines_long_first_line (l rest : Str) (hl : '\n' ∉ l)
    (hlong : MaxScanTokenSize ≤ byteLen l) : scanLines (l ++ '\n' :: rest) = [] := by
  unfold scanLines rawLines
  rw [splitLF_append_lf l rest hl]
  have hne := splitLF_ne_nil rest
  obtain ⟨x, xs, hx⟩ := List.exists_cons_of_ne_nil hne
  rw [hx]
  have hnot : ¬ byteLen l < MaxScanTokenSize := by omega
  simp only
  split <;> simp [List.dropLast, List.takeWhile, hnot]

/-! ## Lemmas: the traversal -/

theorem addDeps_spec (s : Traversal) (ds : List Str) :
    ∃ new : List Str,
      (addDeps s ds).dllsToProcess = s.dllsToProcess ++ new ∧
      (addDeps s ds).allRequiredDLLs = s.allRequiredDLLs ++ new ∧
      (addDeps s ds).processedDLLs = s.processedDLLs ∧
      (addDeps s ds).ranges = s.ranges ∧
      (addDeps s ds).inspected = s.inspected ∧
      (addDeps s ds).logs = s.logs ∧
      new.Nodup ∧ ∀ x, x ∈ new ↔ x ∈ ds ∧ x ∉ s.allRequiredDLLs := by
  induction ds generalizing s with
  | nil => exact ⟨[], by simp [addDeps]⟩
  | cons d ds ih =>
    unfold addDeps
    by_cases hd : d ∈ s.allRequiredDLLs
    · rw [if_pos hd]
      obtain ⟨new, h1, h2, h3, h4, h5, h6, h7, h8⟩ := ih s
      refine ⟨new, h1, h2, h3, h4, h5, h6, h7, fun x => ?_⟩
      rw [h8, List.mem_cons]
      constructor
      · rintro ⟨a, b⟩; exact ⟨Or.inr a, b⟩
      · rintro ⟨a | a, b⟩
        · subst a; exact absurd hd b
        · exact ⟨a, b⟩
    · rw [if_neg hd]
      obtain ⟨new, h1, h2, h3, h4, h5, h6, h7, h8⟩ :=
        ih { s with allRequiredDLLs := mapSet s.allRequiredDLLs d,
                    dllsToProcess := s.dllsToProcess ++ [d] }
      have hm : mapSet s.allRequiredDLLs d = s.allRequiredDLLs ++ [d] := by
        unfold mapSet; rw [if_neg hd]
      simp only [hm] at h1 h2 h3 h4 h5 h6 h8 ⊢
      refine ⟨d :: new, ?_, ?_, h3, h4, h5, h6, ?_, fun x => ?_⟩
      · rw [h1]; simp
      · rw [h2]; simp
      · refine List.nodup_cons.mpr ⟨fun hmem => ?_, h7⟩
        have := ((h8 d).mp hmem).2
        simp at this
      · rw [List.mem_cons, h8, List.mem_cons]
        simp only [List.mem_append, List.mem_singleton, not_or]
        constructor
        · rintro (a | ⟨a, b, _⟩)
          · subst a; exact ⟨Or.inl rfl, hd⟩
          · exact ⟨Or.inr a, b⟩
        · rintro ⟨a | a, b⟩
          · exact Or.inl a
          · by_cases hx : x = d
            · exact Or.inl hx
            · exact Or.inr ⟨a, b, hx⟩

section Traversal

variable (P : Platform) (w : World) (o : MapOrder) (objdumpPath : Str)
  (searchPaths : List Str) (isQuiet : Bool)

theorem step_spec (s : Traversal) (dll : Str) (rest : List Str)
    (hq : s.dllsToProcess = dll :: rest) :
    ∃ new : List Str,
      (step P w o objdumpPath searchPaths isQuiet s).dllsToProcess = rest ++ new ∧
      (step P w o objdumpPath searchPaths isQuiet s).allRequiredDLLs =
        s.allRequiredDLLs ++ new ∧
      new.Nodup ∧ (∀ x ∈ new, x ∉ s.allRequiredDLLs) ∧
      ((dll ∈ s.processedDLLs ∧ new = [] ∧
          (step P w o objdumpPath searchPaths isQuiet s).processedDLLs = s.processedDLLs ∧
          (step P w o objdumpPath searchPaths isQuiet s).inspected = s.inspected) ∨
       (dll ∉ s.processedDLLs ∧
          (step P w o objdumpPath searchPaths isQuiet s).processedDLLs =
            s.processedDLLs ++ [dll] ∧
          (step P w o objdumpPath searchPaths isQuiet s).inspected = s.inspected ++
            (if findDLL P w.fs searchPaths dll = [] then []
             else [(some dll, findDLL P w.fs searchPaths dll)]) ∧
          ((libDeps P w objdumpPath searchPaths dll = none ∧ new = []) ∨
           ∃ ds, libDeps P w objdumpPath searchPaths dll = some ds ∧
             ∀ x, x ∈ new ↔ x ∈ ds ∧ x ∉ s.allRequiredDLLs))) := by
  unfold step
  rw [hq]
  simp only
  by_cases hp : dll ∈ s.processedDLLs
  · rw [if_pos hp]
    exact ⟨[], by simp, by simp, List.nodup_nil, by simp, Or.inl ⟨hp, rfl, rfl, rfl⟩⟩
  · rw [if_neg hp]
    have hm : mapSet s.processedDLLs dll = s.processedDLLs ++ [dll] := by
      unfold mapSet; rw [if_neg hp]
    by_cases hf : findDLL P w.fs searchPaths dll = []
    · rw [if_pos hf]
      refine ⟨[], by simp, by simp, List.nodup_nil, by simp, Or.inr ⟨hp, hm, by simp [hf], ?_⟩⟩
      exact Or.inl ⟨by simp [libDeps, hf], rfl⟩
    · rw [if_neg hf]
      cases hg : GetDependencies P w (findDLL P w.fs searchPaths dll) objdumpPath with
      | error e =>
        simp only
        refine ⟨[], ?_, ?_, List.nodup_nil, by simp, Or.inr ⟨hp, ?_, ?_, ?_⟩⟩
        · split <;> simp
        · split <;> simp
        · split <;> exact hm
        · split <;> simp [hf]
        · exact Or.inl ⟨by simp [libDeps, hf, hg], rfl⟩
      | ok ds =>
        simp only
        obtain ⟨new, h1, h2, h3, _, h5, _, h7, h8⟩ := addDeps_spec
          { dllsToProcess := rest, allRequiredDLLs := s.allRequiredDLLs,
            processedDLLs := mapSet s.processedDLLs dll, ranges := s.ranges + 1,
            inspected := s.inspected ++ [(some dll, findDLL P w.fs searchPaths dll)],
            logs := s.logs } (o.enum s.ranges ds)
        refine ⟨new, h1, h2, h7, fun x hx => ((h8 x).mp hx).2,
          Or.inr ⟨hp, by rw [h3, hm], by rw [h5, if_neg hf], Or.inr ⟨ds, ?_, fun x => ?_⟩⟩⟩
        · simp [libDeps, hf, hg]
        · rw [h8, (o.perm s.ranges ds).mem_iff]

theorem inspectedNames_append (a b : List (Option Str × Str)) :
    inspectedNames (a ++ b) = inspectedNames a ++ inspectedNames b := by
  simp [inspectedNames, List.filterMap_append]

theorem inv_step (rootDeps : StrSet) (s : Traversal)
    (hI : Inv P w objdumpPath searchPaths rootDeps s) :
    Inv P w objdumpPath searchPaths rootDeps (step P w o objdumpPath searchPaths isQuiet s) := by
  cases hq : s.dllsToProcess with
  | nil =>
    have : step P w o objdumpPath searchPaths isQuiet s = s := by
      unfold step; rw [hq]
    rw [this]; exact hI
  | cons dll rest =>
    obtain ⟨new, h1, h2, hnd, hnot, hc⟩ :=
      step_spec P w o objdumpPath searchPaths isQuiet s dll rest hq
    have hdll : dll ∈ s.allRequiredDLLs := hI.queue_sub dll (by rw [hq]; simp)
    have hproc : ∀ x ∈ s.processedDLLs,
        x ∈ (step P w o objdumpPath searchPaths isQuiet s).processedDLLs := by
      intro x hx
      rcases hc with ⟨_, _, hp, _⟩ | ⟨_, hp, _⟩ <;> rw [hp]
      · exact hx
      · exact List.mem_append_left _ hx
    have hdllproc : dll ∈ (step P w o objdumpPath searchPaths isQuiet s).processedDLLs := by
      rcases hc with ⟨hm, _, hp, _⟩ | ⟨_, hp, _⟩ <;> rw [hp]
      · exact hm
      · simp
    refine ⟨?_, ?_, ?_, ?_, ?_, ?_, ?_, ?_, ?_, ?_⟩
    · rw [h2]
      exact List.Nodup.append hI.nodup hnd (fun x hx hx' => hnot x hx' hx)
    · intro x hx
      rw [h1] at hx; rw [h2]
      rcases List.mem_append.mp hx with hx | hx
      · exact List.mem_append_left _ (hI.queue_sub x (by rw [hq]; exact List.mem_cons_of_mem _ hx))
      · exact List.mem_append_right _ hx
    · intro x hx
      rw [h2]; exact List.mem_append_left _ (hI.root_sub x hx)
    · intro x hx
      rw [h2] at hx; rw [h1]
      rcases List.mem_append.mp hx with hx | hx
      · rcases hI.pending x hx with hx | hx
        · rw [hq] at hx
          rcases List.mem_cons.mp hx with hx | hx
          · subst hx; exact Or.inr hdllproc
          · exact Or.inl (List.mem_append_left _ hx)
        · exact Or.inr (hproc x hx)
      · exact Or.inl (List.mem_append_right _ hx)
    · intro x hx ds hds d hd
      rw [h2]
      rcases hc with ⟨_, _, hp, _⟩ | ⟨_, hp, _, hk⟩
      · rw [hp] at hx
        exact List.mem_append_left _ (hI.handled x hx ds hds d hd)
      · rw [hp] at hx
        rcases List.mem_append.mp hx with hx | hx
        · exact List.mem_append_left _ (hI.handled x hx ds hds d hd)
        · simp at hx; subst hx
          rcases hk with ⟨hn, _⟩ | ⟨ds0, hds0, hmem⟩
          · rw [hn] at hds; cases hds
          · rw [hds0] at hds; cases hds
            by_cases hd' : d ∈ s.allRequiredDLLs
            · exact List.mem_append_left _ hd'
            · exact List.mem_append_right _ ((hmem d).mpr ⟨hd, hd'⟩)
    · intro S hS x hx
      rw [h2] at hx
      rcases List.mem_append.mp hx with hx | hx
      · exact hI.least S hS x hx
      · rcases hc with ⟨_, hn, _⟩ | ⟨_, _, _, hk⟩
        · rw [hn] at hx; cases hx
        · rcases hk with ⟨_, hn⟩ | ⟨ds0, hds0, hmem⟩
          · rw [hn] at hx; cases hx
          · exact hS.2 dll (hI.least S hS dll hdll) ds0 hds0 x ((hmem x).mp hx).1
    · rcases hc with ⟨_, _, _, hi⟩ | ⟨hp, _, hi, _⟩
      · rw [hi]; exact hI.insp_nodup
      · rw [hi, inspectedNames_append]
        split
        · simpa [inspectedNames] using hI.insp_nodup
        · refine List.Nodup.append hI.insp_nodup (by simp [inspectedNames]) ?_
          intro x hx hx'
          simp [inspectedNames] at hx'
          subst hx'
          exact hp (hI.insp_sub _ hx)
    · intro x hx
      rcases hc with ⟨_, _, _, hi⟩ | ⟨_, _, hi, _⟩
      · rw [hi] at hx; exact hproc x (hI.insp_sub x hx)
      · rw [hi, inspectedNames_append] at hx
        rcases List.mem_append.mp hx with hx | hx
        · exact hproc x (hI.insp_sub x hx)
        · split at hx
          · simp [inspectedNames] at hx
          · simp [inspectedNames] at hx
            subst hx; exact hdllproc
    · intro d path hmem
      rcases hc with ⟨_, _, _, hi⟩ | ⟨_, _, hi, _⟩
      · rw [hi] at hmem; exact hI.insp_path d path hmem
      · rw [hi] at hmem
        rcases List.mem_append.mp hmem with hmem | hmem
        · exact hI.insp_path d path hmem
        · split at hmem
          · cases hmem
          · rename_i hf
            simp at hmem
            obtain ⟨rfl, rfl⟩ := hmem
            exact ⟨rfl, hf⟩
    · intro x hx hf
      rcases hc with ⟨_, _, hp, hi⟩ | ⟨_, hp, hi, _⟩
      · rw [hi]; rw [hp] at hx; exact hI.insp_all x hx hf
      · rw [hi, inspectedNames_append]; rw [hp] at hx
        rcases List.mem_append.mp hx with hx | hx
        · exact List.mem_append_left _ (hI.insp_all x hx hf)
        · simp at hx; subst hx
          rw [if_neg hf]
          exact List.mem_append_right _ (by simp [inspectedNames])

theorem inv_loop (rootDeps : StrSet) (fuel : Nat) (s : Traversal)
    (hI : Inv P w objdumpPath searchPaths rootDeps s) :
    Inv P w objdumpPath searchPaths rootDeps (loop P w o objdumpPath searchPaths isQuiet fuel s) := by
  induction fuel generalizing s with
  | zero => exact hI
  | succ n ih =>
    unfold loop
    split
    · exact ih _ (inv_step P w o objdumpPath searchPaths isQuiet rootDeps s hI)
    · exact hI

theorem loop_finishes_aux (rootDeps : StrSet) (U : List Str)
    (hU : Closed rootDeps (libDeps P w objdumpPath searchPaths) (fun x => x ∈ U))
    (n : Nat) (s : Traversal) (hI : Inv P w objdumpPath searchPaths rootDeps s)
    (hn : s.dllsToProcess.length + U.length ≤ n + s.allRequiredDLLs.length) :
    (loop P w o objdumpPath searchPaths isQuiet n s).dllsToProcess = [] := by
  have hle : ∀ t : Traversal, Inv P w objdumpPath searchPaths rootDeps t →
      t.allRequiredDLLs.length ≤ U.length := fun t ht =>
    (List.subperm_of_subset ht.nodup (fun x hx => ht.least _ hU x hx)).length_le
  induction n generalizing s with
  | zero =>
    have := hle s hI
    unfold loop
    exact List.eq_nil_of_length_eq_zero (by omega)
  | succ n ih =>
    unfold loop
    split
    · rename_i hpos
      apply ih _ (inv_step P w o objdumpPath searchPaths isQuiet rootDeps s hI)
      cases hq : s.dllsToProcess with
      | nil => rw [hq] at hpos; simp at hpos
      | cons dll rest =>
        obtain ⟨new, h1, h2, _⟩ :=
          step_spec P w o objdumpPath searchPaths isQuiet s dll rest hq
        rw [h1, h2, List.length_append, List.length_append]
        rw [hq, List.length_cons] at hn
        omega
    · rename_i hpos
      exact List.eq_nil_of_length_eq_zero (by omega)

theorem loop_of_done (n : Nat) (s : Traversal) (h : s.dllsToProcess = []) :
    loop P w o objdumpPath searchPaths isQuiet n s = s := by
  cases n with
  | zero => rfl
  | succ n => unfold loop; rw [h]; simp

/-- Once the loop has been left, further fuel changes nothing. -/
theorem loop_stable (n m : Nat) (s : Traversal) (hm : n ≤ m)
    (h : (loop P w o objdumpPath searchPaths isQuiet n s).dllsToProcess = []) :
    loop P w o objdumpPath searchPaths isQuiet m s =
      loop P w o objdumpPath searchPaths isQuiet n s := by
  induction n generalizing s m with
  | zero =>
    have hs : s.dllsToProcess = [] := h
    rw [loop_of_done P w o objdumpPath searchPaths isQuiet m s hs]
    rfl
  | succ n ih =>
    obtain ⟨m', rfl⟩ : ∃ m', m = m' + 1 := ⟨m - 1, by omega⟩
    unfold loop at h ⊢
    split
    · rename_i hpos
      rw [if_pos hpos] at h
      exact ih m' _ (by omega) h
    · rfl

theorem inv_seed (rootDeps : StrSet) (outputPath : Str) :
    Inv P w objdumpPath searchPaths rootDeps (seed o outputPath rootDeps) ∧
    (seed o outputPath rootDeps).dllsToProcess = (seed o outputPath rootDeps).allRequiredDLLs := by
  obtain ⟨new, h1, h2, h3, _, h5, _, h7, h8⟩ := addDeps_spec
    { dllsToProcess := [], allRequiredDLLs := [], processedDLLs := [], ranges := 1,
      inspected := [(none, outputPath)], logs := [] } (o.enum 0 rootDeps)
  simp only [List.nil_append, List.not_mem_nil, not_false_eq_true, and_true] at h1 h2 h3 h5 h8
  have hmem : ∀ x, x ∈ new ↔ x ∈ rootDeps := fun x => by
    rw [h8, (o.perm 0 rootDeps).mem_iff]
  unfold seed
  refine ⟨⟨?_, ?_, ?_, ?_, ?_, ?_, ?_, ?_, ?_, ?_⟩, by rw [h1, h2]⟩
  · rw [h2]; exact h7
  · intro x hx; rw [h1] at hx; rw [h2]; exact hx
  · intro x hx; rw [h2]; exact (hmem x).mpr hx
  · intro x hx; rw [h2] at hx; rw [h1]; exact Or.inl hx
  · intro x hx; rw [h3] at hx; cases hx
  · intro S hS x hx; rw [h2] at hx; exact hS.1 x ((hmem x).mp hx)
  · rw [h5]; simp [inspectedNames]
  · intro x hx; rw [h5] at hx; simp [inspectedNames] at hx
  · intro d path hmem'; rw [h5] at hmem'; simp at hmem'
  · intro x hx; rw [h3] at hx; cases hx

end Traversal

theorem findDLL_eq_nil_or_stat (P : Platform) (fs : FS) (searchPaths : List Str) (dll : Str) :
    findDLL P fs searchPaths dll = [] ∨ fs.stat (findDLL P fs searchPaths dll) = true := by
  induction searchPaths with
  | nil => exact Or.inl rfl
  | cons p rest ih =>
    unfold findDLL
    split
    · rename_i h; exact Or.inr h
    · exact ih

theorem mem_of_lookup (key : Str → Str) (files : List (Str × Content)) (k : Str)
    (h : (FS.lookup key files k).isSome = true) : ∃ p c, (p, c) ∈ files ∧ key p = k := by
  induction files with
  | nil => simp [FS.lookup] at h
  | cons e rest ih =>
    obtain ⟨p, c⟩ := e
    by_cases hp : key p = k
    · exact ⟨p, c, by simp, hp⟩
    · have : (FS.lookup key rest k).isSome = true := by
        simpa [FS.lookup, hp] using h
      obtain ⟨p', c', hmem, hk⟩ := ih this
      exact ⟨p', c', List.mem_cons_of_mem _ hmem, hk⟩

theorem mem_of_stat (fs : FS) (path : Str) (h : fs.stat path = true) :
    ∃ p c, (p, c) ∈ fs.files ∧ fs.key p = fs.key path :=
  mem_of_lookup fs.key fs.files (fs.key path) h

theorem foldl_scanStep_filter (P : Platform) (lines : List Str) (deps : StrSet) :
    (lines.filter (fun l => HasPrefix (TrimSpace l) dllMarker)).foldl (scanStep P) deps =
      lines.foldl (scanStep P) deps := by
  induction lines generalizing deps with
  | nil => rfl
  | cons l ls ih =>
    by_cases hl : HasPrefix (TrimSpace l) dllMarker = true
    · simp only [List.filter_cons, hl, if_true, List.foldl_cons]
      exact ih _
    · have hl' : HasPrefix (TrimSpace l) dllMarker = false := by simpa using hl
      have hstep : scanStep P deps l = deps := by
        unfold scanStep
        simp only [hl', Bool.false_eq_true, if_false]
      simp only [List.filter_cons, hl', Bool.false_eq_true, if_false, List.foldl_cons, hstep]
      exact ih _

theorem parseDeps_eq_markerLines (P : Platform) (out : Str) :
    parseDeps P out = (markerLines out).foldl (scanStep P) [] := by
  unfold parseDeps markerLines
  rw [foldl_scanStep_filter]

theorem depsAt_sameFile (P : Platform) (w : World) (objdumpPath a b : Str)
    (h : w.fs.key a = w.fs.key b) :
    depsAt P w objdumpPath a = depsAt P w objdumpPath b := by
  have hs := w.objdump_sameFile objdumpPath a b h
  unfold depsAt GetDependencies
  cases ha : w.objdump objdumpPath a with
  | none =>
    cases hb : w.objdump objdumpPath b with
    | none => rfl
    | some outb => rw [ha, hb] at hs; cases hs
  | some outa =>
    cases hb : w.objdump objdumpPath b with
    | none => rw [ha, hb] at hs; cases hs
    | some outb =>
      rw [ha, hb] at hs
      have hm : markerLines outa = markerLines outb := by simpa using hs
      simp only
      rw [parseDeps_eq_markerLines, parseDeps_eq_markerLines, hm]

theorem libDeps_sub_universe (P : Platform) (w : World) (objdumpPath outputPath : Str)
    (searchPaths : List Str) (dll : Str) (ds : StrSet)
    (h : libDeps P w objdumpPath searchPaths dll = some ds) :
    ∀ d ∈ ds, d ∈ nameUniverse P w objdumpPath outputPath := by
  intro d hd
  unfold libDeps at h
  split at h
  · cases h
  · rename_i hf
    have hds : depsAt P w objdumpPath (findDLL P w.fs searchPaths dll) = ds := by
      unfold depsAt
      split at h
      · rename_i ds' hds'
        cases h
        rfl
      · cases h
    rcases findDLL_eq_nil_or_stat P w.fs searchPaths dll with h0 | h0
    · exact absurd h0 hf
    · obtain ⟨p, c, hc, hk⟩ := mem_of_stat _ _ h0
      unfold nameUniverse
      refine List.mem_append_right _ (List.mem_flatMap.mpr ⟨_, hc, ?_⟩)
      rw [depsAt_sameFile P w objdumpPath p _ hk, hds]
      exact hd

theorem closed_universe (P : Platform) (w : World) (cgoEnv : CGOEnvironment)
    (outputPath : Str) (initialDeps : StrSet)
    (hroot : GetDependencies P w outputPath (objdumpPathOf P cgoEnv) = .ok initialDeps) :
    Closed initialDeps (libDeps P w (objdumpPathOf P cgoEnv) (searchPathsOf P cgoEnv))
      (fun x => x ∈ nameUniverse P w (objdumpPathOf P cgoEnv) outputPath) := by
  refine ⟨fun d hd => ?_, fun m _ ds hds d hd =>
    libDeps_sub_universe P w _ outputPath _ m ds hds d hd⟩
  unfold nameUniverse
  refine List.mem_append_left _ ?_
  simp only [depsAt, hroot]
  exact hd

theorem traverse_inv (P : Platform) (w : World) (o : MapOrder) (cgoEnv : CGOEnvironment)
    (isQuiet : Bool) (outputPath : Str) (initialDeps : StrSet) :
    Inv P w (objdumpPathOf P cgoEnv) (searchPathsOf P cgoEnv) initialDeps
      (traverse P w o cgoEnv isQuiet outputPath initialDeps) := by
  unfold traverse
  exact inv_loop P w o _ _ isQuiet initialDeps _ _
    (inv_seed P w o _ _ initialDeps outputPath).1

theorem traverse_done (P : Platform) (w : World) (o : MapOrder) (cgoEnv : CGOEnvironment)
    (isQuiet : Bool) (outputPath : Str) (initialDeps : StrSet)
    (hroot : GetDependencies P w outputPath (objdumpPathOf P cgoEnv) = .ok initialDeps) :
    (traverse P w o cgoEnv isQuiet outputPath initialDeps).dllsToProcess = [] := by
  unfold traverse
  have hs := inv_seed P w o (objdumpPathOf P cgoEnv) (searchPathsOf P cgoEnv)
    initialDeps outputPath
  refine loop_finishes_aux P w o (objdumpPathOf P cgoEnv) (searchPathsOf P cgoEnv) isQuiet
    initialDeps _ (closed_universe P w cgoEnv outputPath initialDeps hroot) _ _ hs.1 ?_
  rw [hs.2]
  unfold iterationBound objdumpPathOf
  omega

/-! ## HandlePostBuild as a whole -/

theorem HandlePostBuild_of_root_ok (P : Platform) (w : World) (o : MapOrder) (args : List Str)
    (cgoEnv : CGOEnvironment) (isQuiet : Bool) (initialDeps : StrSet)
    (hroot : GetDependencies P w (outputPathOf P w args) (objdumpPathOf P cgoEnv) =
      .ok initialDeps) :
    (HandlePostBuild P w o args cgoEnv isQuiet false).allRequiredDLLs =
      (traverse P w o cgoEnv isQuiet (outputPathOf P w args) initialDeps).allRequiredDLLs ∧
    (HandlePostBuild P w o args cgoEnv isQuiet false).inspected =
      (traverse P w o cgoEnv isQuiet (outputPathOf P w args) initialDeps).inspected := by
  unfold HandlePostBuild
  simp only [Bool.false_eq_true, if_false, hroot]
  split <;> exact ⟨rfl, rfl⟩

theorem HandlePostBuild_of_root_error (P : Platform) (w : World) (o : MapOrder)
    (args : List Str) (cgoEnv : CGOEnvironment) (isQuiet : Bool) (e : Err)
    (hroot : GetDependencies P w (outputPathOf P w args) (objdumpPathOf P cgoEnv) =
      .error e) :
    HandlePostBuild P w o args cgoEnv isQuiet false =
      { err := some e, fs := w.fs, allRequiredDLLs := [],
        inspected := [(none, outputPathOf P w args)], copies := [], logs := [] } := by
  unfold HandlePostBuild
  simp only [Bool.false_eq_true, if_false, hroot]

theorem HandlePostBuild_skip (P : Platform) (w : World) (o : MapOrder)
    (args : List Str) (cgoEnv : CGOEnvironment) (isQuiet : Bool) :
    HandlePostBuild P w o args cgoEnv isQuiet true =
      { err := none, fs := w.fs, allRequiredDLLs := [], inspected := [], copies := [],
        logs := if !isQuiet then [Msg.skipping] else [] } := by
  unfold HandlePostBuild
  simp only [if_true]

/-- The Dependency Set of a call, whatever the flags and the result of the root
inspection: empty, or the set of the finished traversal. -/
theorem allRequiredDLLs_cases (P : Platform) (w : World) (o : MapOrder) (args : List Str)
    (cgoEnv : CGOEnvironment) (isQuiet skipCopy : Bool) :
    ((HandlePostBuild P w o args cgoEnv isQuiet skipCopy).allRequiredDLLs = [] ∧
     (HandlePostBuild P w o args cgoEnv isQuiet skipCopy).inspected.length ≤ 1 ∧
     ∀ dll path, (some dll, path) ∉ (HandlePostBuild P w o args cgoEnv isQuiet skipCopy).inspected) ∨
    ∃ initialDeps,
      GetDependencies P w (outputPathOf P w args) (objdumpPathOf P cgoEnv) = .ok initialDeps ∧
      skipCopy = false ∧
      (HandlePostBuild P w o args cgoEnv isQuiet skipCopy).allRequiredDLLs =
        (traverse P w o cgoEnv isQuiet (outputPathOf P w args) initialDeps).allRequiredDLLs ∧
      (HandlePostBuild P w o args cgoEnv isQuiet skipCopy).inspected =
        (traverse P w o cgoEnv isQuiet (outputPathOf P w args) initialDeps).inspected := by
  cases skipCopy with
  | true =>
    rw [HandlePostBuild_skip]
    exact Or.inl ⟨rfl, by simp, by simp⟩
  | false =>
    cases hroot : GetDependencies P w (outputPathOf P w args) (objdumpPathOf P cgoEnv) with
    | error e =>
      rw [HandlePostBuild_of_root_error P w o args cgoEnv isQuiet e hroot]
      exact Or.inl ⟨rfl, by simp, by simp⟩
    | ok ds =>
      exact Or.inr ⟨ds, rfl, rfl, HandlePostBuild_of_root_ok P w o args cgoEnv isQuiet ds hroot⟩

theorem closed_not_system (P : Platform) (w : World) (objdumpPath outputPath : Str)
    (searchPaths : List Str) (initialDeps : StrSet)
    (hroot : GetDependencies P w outputPath objdumpPath = .ok initialDeps) :
    Closed initialDeps (libDeps P w objdumpPath searchPaths)
      (fun x => systemDLLs (ToLower P x) = false) := by
  constructor
  · intro d hd
    unfold GetDependencies at hroot
    split at hroot
    · cases hroot
    · cases hroot
      exact parseDeps_not_system hd
  · intro m _ ds hds d hd
    unfold libDeps at hds
    split at hds
    · cases hds
    · split at hds
      · rename_i ds' hds'
        cases hds
        unfold GetDependencies at hds'
        split at hds'
        · cases hds'
        · cases hds'
          exact parseDeps_not_system hd
      · cases hds

/-! ## The Dependency Set -/

/-- C1: when the inspection of the build output succeeds with `initialDeps`, the
final Dependency Set is closed (it holds `initialDeps` and, with every member
that is found in a search directory and whose inspection succeeds, that member's
direct dependencies), it is included in every closed set, and for any other
enumeration order of the maps it has the same members. -/
theorem dependency_set_least_closed (P : Platform) (w : World) (o : MapOrder)
    (args : List Str) (cgoEnv : CGOEnvironment) (isQuiet : Bool) (initialDeps : StrSet)
    (hroot : GetDependencies P w (outputPathOf P w args) (objdumpPathOf P cgoEnv) =
      .ok initialDeps) :
    Closed initialDeps (libDeps P w (objdumpPathOf P cgoEnv) (searchPathsOf P cgoEnv))
      (fun x => x ∈ (HandlePostBuild P w o args cgoEnv isQuiet false).allRequiredDLLs) ∧
    (∀ S : Str → Prop,
      Closed initialDeps (libDeps P w (objdumpPathOf P cgoEnv) (searchPathsOf P cgoEnv)) S →
      ∀ x ∈ (HandlePostBuild P w o args cgoEnv isQuiet false).allRequiredDLLs, S x) ∧
    (∀ o' : MapOrder,
      (HandlePostBuild P w o' args cgoEnv isQuiet false).allRequiredDLLs.Perm
        (HandlePostBuild P w o args cgoEnv isQuiet false).allRequiredDLLs) := by
  have key : ∀ o1 : MapOrder,
      Closed initialDeps (libDeps P w (objdumpPathOf P cgoEnv) (searchPathsOf P cgoEnv))
        (fun x => x ∈ (HandlePostBuild P w o1 args cgoEnv isQuiet false).allRequiredDLLs) ∧
      (∀ S : Str → Prop,
        Closed initialDeps (libDeps P w (objdumpPathOf P cgoEnv) (searchPathsOf P cgoEnv)) S →
        ∀ x ∈ (HandlePostBuild P w o1 args cgoEnv isQuiet false).allRequiredDLLs, S x) ∧
      (HandlePostBuild P w o1 args cgoEnv isQuiet false).allRequiredDLLs.Nodup := by
    intro o1
    rw [(HandlePostBuild_of_root_ok P w o1 args cgoEnv isQuiet initialDeps hroot).1]
    have hI := traverse_inv P w o1 cgoEnv isQuiet (outputPathOf P w args) initialDeps
    have hdone := traverse_done P w o1 cgoEnv isQuiet (outputPathOf P w args) initialDeps hroot
    refine ⟨⟨hI.root_sub, fun m hm ds hds d hd => ?_⟩, hI.least, hI.nodup⟩
    rcases hI.pending m hm with hq | hp
    · rw [hdone] at hq; cases hq
    · exact hI.handled m hp ds hds d hd
  refine ⟨(key o).1, (key o).2.1, fun o' => ?_⟩
  refine (List.perm_ext_iff_of_nodup (key o').2.2 (key o).2.2).mpr (fun x => ⟨?_, ?_⟩)
  · exact (key o').2.1 _ (key o).1 x
  · exact (key o).2.1 _ (key o').1 x

/-- Witness of C1 on the chain `app.exe -> a.dll -> b.dll -> c.dll`: the final
set is `a.dll, b.dll, c.dll`, also when maps are enumerated in reverse. -/
theorem dependency_set_least_closed_witness :
    GetDependencies asciiPlatform chainWorld (outputPathOf asciiPlatform chainWorld [])
      (objdumpPathOf asciiPlatform demoEnv) = .ok ["a.dll".data] ∧
    (HandlePostBuild asciiPlatform chainWorld orderRev [] demoEnv true false).allRequiredDLLs =
      ["a.dll".data, "b.dll".data, "c.dll".data] ∧
    (Closed ["a.dll".data]
        (libDeps asciiPlatform chainWorld (objdumpPathOf asciiPlatform demoEnv)
          (searchPathsOf asciiPlatform demoEnv))
        (fun x => x ∈
          (HandlePostBuild asciiPlatform chainWorld orderRev [] demoEnv true false).allRequiredDLLs) ∧
      (∀ S : Str → Prop,
        Closed ["a.dll".data]
          (libDeps asciiPlatform chainWorld (objdumpPathOf asciiPlatform demoEnv)
            (searchPathsOf asciiPlatform demoEnv)) S →
        ∀ x ∈ (HandlePostBuild asciiPlatform chainWorld orderRev [] demoEnv true
          false).allRequiredDLLs, S x) ∧
      (∀ o' : MapOrder,
        (HandlePostBuild asciiPlatform chainWorld o' [] demoEnv true false).allRequiredDLLs.Perm
          (HandlePostBuild asciiPlatform chainWorld orderRev [] demoEnv true
            false).allRequiredDLLs)) :=
  ⟨rfl, by decide,
    dependency_set_least_closed asciiPlatform chainWorld orderRev [] demoEnv true
      ["a.dll".data] rfl⟩

/-- C2: a name whose lower-cased form is a key of `systemDLLs` is never in the
Dependency Set, whatever the world, the casing of the name and the number of
binaries that import it; and it is in no result of `GetDependencies`. -/
theorem system_dlls_never_required (P : Platform) (w : World) (o : MapOrder)
    (args : List Str) (cgoEnv : CGOEnvironment) (isQuiet skipCopy : Bool) (n : Str)
    (hn : systemDLLs (ToLower P n) = true) :
    n ∉ (HandlePostBuild P w o args cgoEnv isQuiet skipCopy).allRequiredDLLs ∧
    ∀ binaryPath objdumpPath ds,
      GetDependencies P w binaryPath objdumpPath = .ok ds → n ∉ ds := by
  constructor
  · intro hmem
    rcases allRequiredDLLs_cases P w o args cgoEnv isQuiet skipCopy with ⟨h, _⟩ | ⟨ds, hroot, _, h, _⟩
    · rw [h] at hmem; cases hmem
    · rw [h] at hmem
      have hI := traverse_inv P w o cgoEnv isQuiet (outputPathOf P w args) ds
      have := hI.least _ (closed_not_system P w _ _ _ ds hroot) n hmem
      rw [hn] at this; cases this
  · intro binaryPath objdumpPath ds hds hmem
    unfold GetDependencies at hds
    split at hds
    · cases hds
    · cases hds
      have := parseDeps_not_system hmem
      rw [hn] at this; cases this

/-- Witness of C2: `Kernel32.DLL` lower-cases to a key of `systemDLLs`, every
binary of the chain imports it in some casing, and it is not in the set. -/
theorem system_dlls_never_required_witness :
    systemDLLs (ToLower asciiPlatform "Kernel32.DLL".data) = true ∧
    ("Kernel32.DLL".data ∉
        (HandlePostBuild asciiPlatform chainWorld orderId [] demoEnv false false).allRequiredDLLs ∧
      ∀ binaryPath objdumpPath ds,
        GetDependencies asciiPlatform chainWorld binaryPath objdumpPath = .ok ds →
        "Kernel32.DLL".data ∉ ds) :=
  ⟨by decide,
    system_dlls_never_required asciiPlatform chainWorld orderId [] demoEnv false false
      "Kernel32.DLL".data (by decide)⟩

/-- C4: when the inspection of the build output succeeds, the worklist loop
leaves after finitely many iterations: some number `n` of iterations empties the
queue, any larger number gives the same state, that state is the one
`HandlePostBuild` continues with, and no name occurs twice in its Dependency Set. -/
theorem worklist_loop_terminates (P : Platform) (w : World) (o : MapOrder)
    (cgoEnv : CGOEnvironment) (isQuiet : Bool) (outputPath : Str) (initialDeps : StrSet)
    (hroot : GetDependencies P w outputPath (objdumpPathOf P cgoEnv) = .ok initialDeps) :
    ∃ n : Nat,
      (loop P w o (objdumpPathOf P cgoEnv) (searchPathsOf P cgoEnv) isQuiet n
        (seed o outputPath initialDeps)).dllsToProcess = [] ∧
      (∀ m, n ≤ m →
        loop P w o (objdumpPathOf P cgoEnv) (searchPathsOf P cgoEnv) isQuiet m
          (seed o outputPath initialDeps) =
        loop P w o (objdumpPathOf P cgoEnv) (searchPathsOf P cgoEnv) isQuiet n
          (seed o outputPath initialDeps)) ∧
      traverse P w o cgoEnv isQuiet outputPath initialDeps =
        loop P w o (objdumpPathOf P cgoEnv) (searchPathsOf P cgoEnv) isQuiet n
          (seed o outputPath initialDeps) ∧
      (traverse P w o cgoEnv isQuiet outputPath initialDeps).allRequiredDLLs.Nodup := by
  have hdone := traverse_done P w o cgoEnv isQuiet outputPath initialDeps hroot
  refine ⟨iterationBound P w (objdumpPathOf P cgoEnv) outputPath, hdone, fun m hm => ?_, rfl,
    (traverse_inv P w o cgoEnv isQuiet outputPath initialDeps).nodup⟩
  exact loop_stable P w o _ _ isQuiet _ m _ hm hdone

/-- Witness of C4 on the cycle `a.dll -> b.dll -> a.dll`: the traversal ends
with the set `a.dll, b.dll`, each name once. -/
theorem worklist_loop_terminates_witness :
    GetDependencies asciiPlatform cycleWorld "C:\\app\\app.exe".data
      (objdumpPathOf asciiPlatform demoEnv) = .ok ["a.dll".data] ∧
    (traverse asciiPlatform cycleWorld orderId demoEnv false "C:\\app\\app.exe".data
      ["a.dll".data]).allRequiredDLLs = ["a.dll".data, "b.dll".data] ∧
    ∃ n : Nat,
      (loop asciiPlatform cycleWorld orderId (objdumpPathOf asciiPlatform demoEnv)
        (searchPathsOf asciiPlatform demoEnv) false n
        (seed orderId "C:\\app\\app.exe".data ["a.dll".data])).dllsToProcess = [] ∧
      (∀ m, n ≤ m →
        loop asciiPlatform cycleWorld orderId (objdumpPathOf asciiPlatform demoEnv)
          (searchPathsOf asciiPlatform demoEnv) false m
          (seed orderId "C:\\app\\app.exe".data ["a.dll".data]) =
        loop asciiPlatform cycleWorld orderId (objdumpPathOf asciiPlatform demoEnv)
          (searchPathsOf asciiPlatform demoEnv) false n
          (seed orderId "C:\\app\\app.exe".data ["a.dll".data])) ∧
      traverse asciiPlatform cycleWorld orderId demoEnv false "C:\\app\\app.exe".data
          ["a.dll".data] =
        loop asciiPlatform cycleWorld orderId (objdumpPathOf asciiPlatform demoEnv)
          (searchPathsOf asciiPlatform demoEnv) false n
          (seed orderId "C:\\app\\app.exe".data ["a.dll".data]) ∧
      (traverse asciiPlatform cycleWorld orderId demoEnv false "C:\\app\\app.exe".data
        ["a.dll".data]).allRequiredDLLs.Nodup :=
  ⟨rfl, by decide,
    worklist_loop_terminates asciiPlatform cycleWorld orderId demoEnv false
      "C:\\app\\app.exe".data ["a.dll".data] rfl⟩

theorem inspectedNames_eq_nil (l : List (Option Str × Str))
    (h : ∀ dll path, (some dll, path) ∉ l) : inspectedNames l = [] := by
  unfold inspectedNames
  rw [List.filterMap_eq_nil_iff]
  rintro ⟨a, b⟩ hmem
  cases a with
  | none => rfl
  | some d => exact absurd hmem (h d b)

/-- C7: in one call of `HandlePostBuild` no library name is passed twice to
`GetDependencies`; each such call is made on the file found for the name in the
first search directory that has it; and every member of the final Dependency
Set that is found in a search directory is inspected (hence exactly once). -/
theorem each_library_inspected_at_most_once (P : Platform) (w : World) (o : MapOrder)
    (args : List Str) (cgoEnv : CGOEnvironment) (isQuiet skipCopy : Bool) :
    (inspectedNames (HandlePostBuild P w o args cgoEnv isQuiet skipCopy).inspected).Nodup ∧
    (∀ dll path,
      (some dll, path) ∈ (HandlePostBuild P w o args cgoEnv isQuiet skipCopy).inspected →
      path = findDLL P w.fs (searchPathsOf P cgoEnv) dll ∧ path ≠ []) ∧
    (∀ dll ∈ (HandlePostBuild P w o args cgoEnv isQuiet skipCopy).allRequiredDLLs,
      findDLL P w.fs (searchPathsOf P cgoEnv) dll ≠ [] →
      dll ∈ inspectedNames (HandlePostBuild P w o args cgoEnv isQuiet skipCopy).inspected) := by
  rcases allRequiredDLLs_cases P w o args cgoEnv isQuiet skipCopy with
    ⟨h, _, hn⟩ | ⟨ds, hroot, _, h, hi⟩
  · refine ⟨?_, fun dll path hmem => absurd hmem (hn dll path), fun dll hmem => ?_⟩
    · rw [inspectedNames_eq_nil _ hn]; exact List.nodup_nil
    · rw [h] at hmem; cases hmem
  · have hI := traverse_inv P w o cgoEnv isQuiet (outputPathOf P w args) ds
    have hdone := traverse_done P w o cgoEnv isQuiet (outputPathOf P w args) ds hroot
    rw [h, hi]
    refine ⟨hI.insp_nodup, hI.insp_path, fun dll hmem hf => ?_⟩
    rcases hI.pending dll hmem with hq | hp
    · rw [hdone] at hq; cases hq
    · exact hI.insp_all dll hp hf

/-- Witness of C7 on the chain `app.exe -> a.dll -> b.dll -> c.dll`: the calls
of `GetDependencies` are one for the build output and one for each library. -/
theorem each_library_inspected_at_most_once_witness :
    (HandlePostBuild asciiPlatform chainWorld orderRev [] demoEnv false false).inspected =
      [(none, "C:\\app\\app.exe".data),
       (some "a.dll".data, "E:\\env\\Library\\bin\\a.dll".data),
       (some "b.dll".data, "E:\\env\\Library\\bin\\b.dll".data),
       (some "c.dll".data, "E:\\env\\Library\\bin\\c.dll".data)] ∧
    ((inspectedNames
        (HandlePostBuild asciiPlatform chainWorld orderRev [] demoEnv false false).inspected).Nodup ∧
      (∀ dll path,
        (some dll, path) ∈
          (HandlePostBuild asciiPlatform chainWorld orderRev [] demoEnv false false).inspected →
        path = findDLL asciiPlatform chainWorld.fs (searchPathsOf asciiPlatform demoEnv) dll ∧
          path ≠ []) ∧
      (∀ dll ∈
          (HandlePostBuild asciiPlatform chainWorld orderRev [] demoEnv false false).allRequiredDLLs,
        findDLL asciiPlatform chainWorld.fs (searchPathsOf asciiPlatform demoEnv) dll ≠ [] →
        dll ∈ inspectedNames
          (HandlePostBuild asciiPlatform chainWorld orderRev [] demoEnv false false).inspected)) :=
  ⟨by decide,
    each_library_inspected_at_most_once asciiPlatform chainWorld orderRev [] demoEnv false false⟩

/-- C8, as the claim states it, fails: the scan of an output naming `Foo.dll`
and `foo.dll` keeps both, and so does the Dependency Set of a build whose
binaries import one each. -/
theorem case_insensitive_identity_fails :
    ¬ CaseInsensitiveUnique asciiPlatform (parseDeps asciiPlatform mixedCaseOutput) ∧
    ¬ CaseInsensitiveUnique asciiPlatform
      (HandlePostBuild asciiPlatform mixedCaseWorld orderId [] demoEnv false false).allRequiredDLLs := by
  constructor <;> intro h
  · exact absurd (h "Foo.dll".data (by decide) "foo.dll".data (by decide) (by decide)) (by decide)
  · exact absurd (h "Foo.dll".data (by decide) "foo.dll".data (by decide) (by decide)) (by decide)

/-- C8 amended: identity in the Dependency Set is exact string equality; no
string occurs twice in the final Dependency Set nor in a result of
`GetDependencies`. -/
theorem dependency_set_entries_distinct (P : Platform) (w : World) (o : MapOrder)
    (args : List Str) (cgoEnv : CGOEnvironment) (isQuiet skipCopy : Bool) :
    (HandlePostBuild P w o args cgoEnv isQuiet skipCopy).allRequiredDLLs.Nodup ∧
    ∀ binaryPath objdumpPath ds,
      GetDependencies P w binaryPath objdumpPath = .ok ds → ds.Nodup := by
  constructor
  · rcases allRequiredDLLs_cases P w o args cgoEnv isQuiet skipCopy with ⟨h, _⟩ | ⟨ds, _, _, h, _⟩
    · rw [h]; exact List.nodup_nil
    · rw [h]; exact (traverse_inv P w o cgoEnv isQuiet (outputPathOf P w args) ds).nodup
  · intro binaryPath objdumpPath ds hds
    unfold GetDependencies at hds
    split at hds
    · cases hds
    · cases hds; exact parseDeps_nodup P _

/-- Witness of C8 amended: the two casings of one library are two entries, and
the set built from them has no repeated string. -/
theorem dependency_set_entries_distinct_witness :
    (HandlePostBuild asciiPlatform mixedCaseWorld orderId [] demoEnv false false).allRequiredDLLs =
      ["Foo.dll".data, "foo.dll".data] ∧
    GetDependencies asciiPlatform mixedCaseWorld "C:\\app\\app.exe".data [] =
      .ok ["Foo.dll".data] ∧
    ((HandlePostBuild asciiPlatform mixedCaseWorld orderId [] demoEnv false
        false).allRequiredDLLs.Nodup ∧
      ∀ binaryPath objdumpPath ds,
        GetDependencies asciiPlatform mixedCaseWorld binaryPath objdumpPath = .ok ds →
        ds.Nodup) :=
  ⟨by decide, rfl,
    dependency_set_entries_distinct asciiPlatform mixedCaseWorld orderId [] demoEnv false false⟩

/-! ## The scan of a tool output with an over-long line -/

theorem parseDeps_longLineOutput (P : Platform) : parseDeps P longLineOutput = [] := by
  have h1 : '\n' ∉ List.replicate MaxScanTokenSize 'a' := fun h =>
    absurd (List.eq_of_mem_replicate h) (by decide)
  have h2 : MaxScanTokenSize ≤ byteLen (List.replicate MaxScanTokenSize 'a') := by
    rw [byteLen_replicate_a]
  unfold parseDeps longLineOutput
  rw [scanLines_long_first_line _ _ h1 h2]
  rfl

/-- C3 at its failing input: the tool succeeds with an output whose first line
is `MaxScanTokenSize` bytes long and whose second line is `DLL Name: foo.dll`;
`GetDependencies` returns the empty set and a nil error, although a line of the
output declares `foo.dll`, which is not a system DLL. -/
theorem long_line_hides_dependency :
    GetDependencies asciiPlatform longLineWorld "C:\\app\\app.exe".data [] = .ok [] ∧
    "DLL Name: foo.dll".data ∈ splitLF longLineOutput ∧
    DeclaresDep asciiPlatform "foo.dll".data "DLL Name: foo.dll".data := by
  refine ⟨?_, ?_, ⟨by decide, by decide, by decide⟩⟩
  · show Except.ok (parseDeps asciiPlatform longLineOutput) = Except.ok []
    rw [parseDeps_longLineOutput]
  · have h1 : '\n' ∉ List.replicate MaxScanTokenSize 'a' := fun h =>
      absurd (List.eq_of_mem_replicate h) (by decide)
    unfold longLineOutput
    rw [splitLF_append_lf _ _ h1]
    exact List.mem_cons_of_mem _ (by decide)

/-- The scenario of the specification: an output with the lines
`DLL Name: foo.dll` and `DLL Name: kernel32.dll` scans to `foo.dll` alone. -/
theorem parseDeps_foo_kernel32 :
    parseDeps asciiPlatform "DLL Name: foo.dll\nDLL Name: kernel32.dll\n".data =
      ["foo.dll".data] := by
  decide

/-! ## The build flags -/

theorem filterNoCopy_spec (l : List Str) (skipCopy : Bool) (filteredArgs : List Str) :
    filterNoCopy (skipCopy, filteredArgs) l =
      (skipCopy || decide ("-no-copy".data ∈ l),
       filteredArgs ++ l.filter (fun a => decide (a ≠ "-no-copy".data))) := by
  induction l generalizing skipCopy filteredArgs with
  | nil => simp [filterNoCopy]
  | cons a l ih =>
    unfold filterNoCopy
    by_cases ha : a = "-no-copy".data
    · rw [if_pos ha, ih]
      simp [ha]
    · rw [if_neg ha, ih]
      have : ¬ "-no-copy".data = a := fun h => ha h.symm
      simp [ha, this, List.filter_cons]

/-- C10: with `skipCopy = true`, `HandlePostBuild` returns nil for every
argument list, environment and quiet flag, calls neither `GetDependencies` nor
`copyFile` and leaves the files as they were; and for a `build` command `main`
sets `skipCopy` exactly when some argument is `-no-copy`, passing on the other
arguments in their order. -/
theorem skip_copy_is_noop (P : Platform) (w : World) (o : MapOrder) (args : List Str)
    (cgoEnv : CGOEnvironment) (isQuiet : Bool) (cmdArgs : List Str)
    (hbuild : cmdArgs.head? = some "build".data) :
    (HandlePostBuild P w o args cgoEnv isQuiet true).err = none ∧
    (HandlePostBuild P w o args cgoEnv isQuiet true).inspected = [] ∧
    (HandlePostBuild P w o args cgoEnv isQuiet true).copies = [] ∧
    (HandlePostBuild P w o args cgoEnv isQuiet true).fs = w.fs ∧
    ((buildFlags cmdArgs).2.2 = true ↔ "-no-copy".data ∈ cmdArgs) ∧
    (buildFlags cmdArgs).2.1 = true ∧
    (buildFlags cmdArgs).1 = cmdArgs.filter (fun a => decide (a ≠ "-no-copy".data)) := by
  rw [HandlePostBuild_skip]
  refine ⟨rfl, rfl, rfl, rfl, ?_, ?_, ?_⟩ <;>
    simp [buildFlags, hbuild, filterNoCopy_spec]

/-- Witness of C10: `build -no-copy -o x.exe -no-copy .` sets `skipCopy` and
passes on `build -o x.exe .`; the call that follows does nothing. -/
theorem skip_copy_is_noop_witness :
    buildFlags ["build".data, "-no-copy".data, "-o".data, "x.exe".data, "-no-copy".data,
        ".".data] = (["build".data, "-o".data, "x.exe".data, ".".data], true, true) ∧
    buildFlags ["build".data, "-o".data, "x.exe".data] =
      (["build".data, "-o".data, "x.exe".data], true, false) ∧
    (HandlePostBuild asciiPlatform chainWorld orderId
      ["build".data, "-o".data, "x.exe".data, ".".data] demoEnv false true).err = none :=
  ⟨by decide, by decide,
    (skip_copy_is_noop asciiPlatform chainWorld orderId
      ["build".data, "-o".data, "x.exe".data, ".".data] demoEnv false
      ["build".data, "-no-copy".data, "-o".data, "x.exe".data, "-no-copy".data, ".".data]
      (by decide)).1⟩

/-! ## The copy phase -/

theorem copyOne_spec (P : Platform) (w : World) (destDir dll : Str) (isQuiet : Bool)
    (c : Copying) (searchPaths : List Str) :
    ((copyOne P w destDir dll isQuiet c searchPaths).2 = true ∧
      ((copyOne P w destDir dll isQuiet c searchPaths).1.copies = c.copies ∨
       ∃ src dst, (copyOne P w destDir dll isQuiet c searchPaths).1.copies =
         c.copies ++ [(dll, src, dst, true)])) ∨
    ((copyOne P w destDir dll isQuiet c searchPaths).2 = false ∧
      ∃ src dst, (copyOne P w destDir dll isQuiet c searchPaths).1.copies =
        c.copies ++ [(dll, src, dst, false)]) := by
  induction searchPaths with
  | nil =>
    unfold copyOne
    refine Or.inl ⟨rfl, Or.inl ?_⟩
    split <;> rfl
  | cons p rest ih =>
    unfold copyOne
    simp only
    split
    · cases hr : (copyFile w c.fs (P.join [p, dll]) (P.join [destDir, dll])).2 with
      | true => exact Or.inl ⟨rfl, Or.inr ⟨_, _, rfl⟩⟩
      | false => exact Or.inr ⟨rfl, _, _, rfl⟩
    · exact ih

theorem copyAll_spec (P : Platform) (w : World) (searchPaths : List Str) (destDir : Str)
    (isQuiet : Bool) (names : List Str) (c : Copying) :
    ∃ added : List (Str × Str × Str × Bool),
      (copyAll P w searchPaths destDir isQuiet c names).1.copies = c.copies ++ added ∧
      (((copyAll P w searchPaths destDir isQuiet c names).2 = none ∧
          ∀ x ∈ added, x.2.2.2 = true) ∨
       ∃ pre dll src dst,
          (copyAll P w searchPaths destDir isQuiet c names).2 = some (.copyDLL dll) ∧
          dll ∈ names ∧ added = pre ++ [(dll, src, dst, false)] ∧
          ∀ x ∈ pre, x.2.2.2 = true) := by
  induction names generalizing c with
  | nil => exact ⟨[], by simp [copyAll], Or.inl ⟨rfl, by simp⟩⟩
  | cons dll rest ih =>
    unfold copyAll
    simp only
    rcases copyOne_spec P w destDir dll isQuiet c searchPaths with ⟨hok, hc⟩ | ⟨hbad, src, dst, hc⟩
    · rw [if_pos hok]
      obtain ⟨added, h1, h2⟩ := ih (copyOne P w destDir dll isQuiet c searchPaths).1
      rcases hc with hc | ⟨src, dst, hc⟩
      · rw [hc] at h1
        refine ⟨added, h1, ?_⟩
        rcases h2 with h2 | ⟨pre, d, s1, s2, he, hd, ha, hp⟩
        · exact Or.inl h2
        · exact Or.inr ⟨pre, d, s1, s2, he, List.mem_cons_of_mem _ hd, ha, hp⟩
      · rw [hc, List.append_assoc] at h1
        refine ⟨[(dll, src, dst, true)] ++ added, h1, ?_⟩
        rcases h2 with ⟨h2, h3⟩ | ⟨pre, d, s1, s2, he, hd, ha, hp⟩
        · refine Or.inl ⟨h2, fun x hx => ?_⟩
          rcases List.mem_append.mp hx with hx | hx
          · simp at hx; subst hx; rfl
          · exact h3 x hx
        · refine Or.inr ⟨[(dll, src, dst, true)] ++ pre, d, s1, s2, he,
            List.mem_cons_of_mem _ hd, by rw [ha, List.append_assoc], fun x hx => ?_⟩
          rcases List.mem_append.mp hx with hx | hx
          · simp at hx; subst hx; rfl
          · exact hp x hx
    · rw [hbad]
      simp only [Bool.false_eq_true, if_false]
      exact ⟨[(dll, src, dst, false)], hc,
        Or.inr ⟨[], dll, src, dst, rfl, List.mem_cons_self _ _, rfl, by simp⟩⟩

theorem HandlePostBuild_copy_phase (P : Platform) (w : World) (o : MapOrder) (args : List Str)
    (cgoEnv : CGOEnvironment) (isQuiet : Bool) (initialDeps : StrSet)
    (hroot : GetDependencies P w (outputPathOf P w args) (objdumpPathOf P cgoEnv) =
      .ok initialDeps) :
    ∃ (c : Copying) (names : List Str),
      c.copies = [] ∧ c.fs = w.fs ∧
      names.Perm (HandlePostBuild P w o args cgoEnv isQuiet false).allRequiredDLLs ∧
      (HandlePostBuild P w o args cgoEnv isQuiet false).err =
        (copyAll P w (searchPathsOf P cgoEnv) (P.dir (outputPathOf P w args)) isQuiet c names).2 ∧
      (HandlePostBuild P w o args cgoEnv isQuiet false).copies =
        (copyAll P w (searchPathsOf P cgoEnv) (P.dir (outputPathOf P w args)) isQuiet c
          names).1.copies ∧
      (HandlePostBuild P w o args cgoEnv isQuiet false).fs =
        (copyAll P w (searchPathsOf P cgoEnv) (P.dir (outputPathOf P w args)) isQuiet c
          names).1.fs := by
  refine ⟨copyStart w isQuiet (P.dir (outputPathOf P w args))
      (traverse P w o cgoEnv isQuiet (outputPathOf P w args) initialDeps),
    o.enum (traverse P w o cgoEnv isQuiet (outputPathOf P w args) initialDeps).ranges
      (traverse P w o cgoEnv isQuiet (outputPathOf P w args) initialDeps).allRequiredDLLs,
    rfl, rfl, ?_, ?_, ?_, ?_⟩
  · rw [(HandlePostBuild_of_root_ok P w o args cgoEnv isQuiet initialDeps hroot).1]
    exact o.perm _ _
  · unfold HandlePostBuild
    simp only [Bool.false_eq_true, if_false, hroot]
    split
    · rename_i h; rw [h]
    · rename_i h; rw [h]
  · unfold HandlePostBuild
    simp only [Bool.false_eq_true, if_false, hroot]
    split <;> rfl
  · unfold HandlePostBuild
    simp only [Bool.false_eq_true, if_false, hroot]
    split <;> rfl

/-- C5: when the inspection of the build output fails, its error is returned
and nothing is copied; when it succeeds, the call returns nil exactly when every
`copyFile` call made succeeded, and a returned error is that of a failed copy of
a member of the Dependency Set, which is the last `copyFile` call made.  Hence
in a call in which no copy fails an error is returned exactly when the
inspection of the build output fails. -/
theorem error_only_from_root_or_copy (P : Platform) (w : World) (o : MapOrder)
    (args : List Str) (cgoEnv : CGOEnvironment) (isQuiet : Bool) :
    (∀ e, GetDependencies P w (outputPathOf P w args) (objdumpPathOf P cgoEnv) = .error e →
      (HandlePostBuild P w o args cgoEnv isQuiet false).err = some e ∧
      (HandlePostBuild P w o args cgoEnv isQuiet false).copies = []) ∧
    (∀ ds, GetDependencies P w (outputPathOf P w args) (objdumpPathOf P cgoEnv) = .ok ds →
      ((HandlePostBuild P w o args cgoEnv isQuiet false).err = none ↔
        ∀ c ∈ (HandlePostBuild P w o args cgoEnv isQuiet false).copies, c.2.2.2 = true) ∧
      (∀ e, (HandlePostBuild P w o args cgoEnv isQuiet false).err = some e →
        ∃ pre dll src dst, e = .copyDLL dll ∧
          dll ∈ (HandlePostBuild P w o args cgoEnv isQuiet false).allRequiredDLLs ∧
          (HandlePostBuild P w o args cgoEnv isQuiet false).copies =
            pre ++ [(dll, src, dst, false)] ∧
          ∀ c ∈ pre, c.2.2.2 = true)) ∧
    ((∀ c ∈ (HandlePostBuild P w o args cgoEnv isQuiet false).copies, c.2.2.2 = true) →
      ((HandlePostBuild P w o args cgoEnv isQuiet false).err ≠ none ↔
        ∃ e, GetDependencies P w (outputPathOf P w args) (objdumpPathOf P cgoEnv) =
          .error e)) := by
  have hErr : ∀ e,
      GetDependencies P w (outputPathOf P w args) (objdumpPathOf P cgoEnv) = .error e →
      (HandlePostBuild P w o args cgoEnv isQuiet false).err = some e ∧
      (HandlePostBuild P w o args cgoEnv isQuiet false).copies = [] := by
    intro e he
    rw [HandlePostBuild_of_root_error P w o args cgoEnv isQuiet e he]
    exact ⟨rfl, rfl⟩
  have hOk : ∀ ds,
      GetDependencies P w (outputPathOf P w args) (objdumpPathOf P cgoEnv) = .ok ds →
      ((HandlePostBuild P w o args cgoEnv isQuiet false).err = none ↔
        ∀ c ∈ (HandlePostBuild P w o args cgoEnv isQuiet false).copies, c.2.2.2 = true) ∧
      (∀ e, (HandlePostBuild P w o args cgoEnv isQuiet false).err = some e →
        ∃ pre dll src dst, e = .copyDLL dll ∧
          dll ∈ (HandlePostBuild P w o args cgoEnv isQuiet false).allRequiredDLLs ∧
          (HandlePostBuild P w o args cgoEnv isQuiet false).copies =
            pre ++ [(dll, src, dst, false)] ∧
          ∀ c ∈ pre, c.2.2.2 = true) := by
    intro ds hds
    obtain ⟨c, names, hc, _, hperm, herr, hcopies, _⟩ :=
      HandlePostBuild_copy_phase P w o args cgoEnv isQuiet ds hds
    obtain ⟨added, ha, hcase⟩ :=
      copyAll_spec P w (searchPathsOf P cgoEnv) (P.dir (outputPathOf P w args)) isQuiet names c
    rw [hc, List.nil_append] at ha
    rw [herr, hcopies, ha]
    rcases hcase with ⟨hnone, hall⟩ | ⟨pre, dll, src, dst, hsome, hmem, hadd, hpre⟩
    · rw [hnone]
      exact ⟨⟨fun _ => hall, fun _ => rfl⟩, fun e he => by cases he⟩
    · rw [hsome]
      refine ⟨⟨fun h => (by cases h), fun h => ?_⟩, fun e he => ?_⟩
      · have := h (dll, src, dst, false) (by rw [hadd]; simp)
        cases this
      · cases he
        exact ⟨pre, dll, src, dst, rfl, hperm.mem_iff.mp hmem, hadd, hpre⟩
  refine ⟨hErr, hOk, fun hall => ?_⟩
  cases hroot : GetDependencies P w (outputPathOf P w args) (objdumpPathOf P cgoEnv) with
  | error e =>
    rw [(hErr e hroot).1]
    exact ⟨fun _ => ⟨e, rfl⟩, fun _ => by simp⟩
  | ok ds =>
    have := ((hOk ds hroot).1).mpr hall
    rw [this]
    exact ⟨fun h => absurd rfl h, fun ⟨e, he⟩ => by cases he⟩

/-- Witness of C5: a library that the tool cannot analyse and a library that is
nowhere leave the result nil; a failing `os.Create` gives the copy error and no
further copy; a failing tool on the build output gives its error. -/
theorem error_only_from_root_or_copy_witness :
    (HandlePostBuild asciiPlatform tolerantWorld orderId [] demoEnv false false).err = none ∧
    (HandlePostBuild asciiPlatform tolerantWorld orderId [] demoEnv false false).logs =
      [Msg.cannotAnalyze "a.dll".data, Msg.found 2 "C:\\app".data,
       Msg.notFound "missing.dll".data, Msg.copied 1] ∧
    (HandlePostBuild asciiPlatform createFailsWorld orderId [] demoEnv false false).err =
      some (.copyDLL "b.dll".data) ∧
    (HandlePostBuild asciiPlatform createFailsWorld orderId [] demoEnv false false).copies =
      [("a.dll".data, "E:\\env\\Library\\bin\\a.dll".data, "C:\\app\\a.dll".data, true),
       ("b.dll".data, "E:\\env\\Library\\bin\\b.dll".data, "C:\\app\\b.dll".data, false)] ∧
    (HandlePostBuild asciiPlatform noToolWorld orderId [] demoEnv false false).err =
      some (.objdump "C:\\app\\app.exe".data) ∧
    ((HandlePostBuild asciiPlatform tolerantWorld orderId [] demoEnv false false).err ≠ none ↔
      ∃ e, GetDependencies asciiPlatform tolerantWorld (outputPathOf asciiPlatform tolerantWorld [])
        (objdumpPathOf asciiPlatform demoEnv) = .error e) :=
  ⟨by decide, by decide, by decide, by decide, by decide,
    (error_only_from_root_or_copy asciiPlatform tolerantWorld orderId [] demoEnv false).2.2
      (by decide)⟩

/-! ## Copying into a search directory -/

/-- C6 at its failing input: the build output is written into the first search
directory, `E:\env\Library\bin`, which holds `a.dll` with content `1, 2, 3`.  The
call returns nil, `a.dll` is in the Dependency Set and is found first in that
directory, yet afterwards the file `a.dll` of the output's directory is empty:
`copyFile` was called with the same source and destination, `os.Create`
truncated the file and `io.Copy` then read nothing. -/
theorem self_copy_leaves_empty_library :
    (HandlePostBuild asciiPlatform selfCopyWorld orderId selfCopyArgs demoEnv false false).err =
      none ∧
    (HandlePostBuild asciiPlatform selfCopyWorld orderId selfCopyArgs demoEnv false
      false).allRequiredDLLs = ["a.dll".data] ∧
    findDLL asciiPlatform selfCopyWorld.fs (searchPathsOf asciiPlatform demoEnv) "a.dll".data =
      "E:\\env\\Library\\bin\\a.dll".data ∧
    selfCopyWorld.fs.read "E:\\env\\Library\\bin\\a.dll".data = some [1, 2, 3] ∧
    asciiPlatform.join
      [asciiPlatform.dir (outputPathOf asciiPlatform selfCopyWorld selfCopyArgs), "a.dll".data] =
      "E:\\env\\Library\\bin\\a.dll".data ∧
    (HandlePostBuild asciiPlatform selfCopyWorld orderId selfCopyArgs demoEnv false false).fs.read
      "E:\\env\\Library\\bin\\a.dll".data = some [] := by
  decide

/-- C9, as the claim states it, fails: with the build output in the second
search directory, the file `foo.dll` there is overwritten by the one of the first
search directory; and with the build output in the directory where the library
is found, whatever the letter case in which that directory is spelled, `copyFile`
gets one file as source and destination and the library loses its content. -/
theorem copy_changes_search_directory_file :
    ((HandlePostBuild asciiPlatform shadowWorld orderId shadowArgs demoEnv false false).err =
      none ∧
     shadowWorld.fs.read "E:\\tool\\foo.dll".data = some [2] ∧
     (HandlePostBuild asciiPlatform shadowWorld orderId shadowArgs demoEnv false false).fs.read
      "E:\\tool\\foo.dll".data = some [1]) ∧
    ((HandlePostBuild asciiPlatform selfCopyWorld orderId selfCopyArgs demoEnv false
        false).copies =
      [("a.dll".data, "E:\\env\\Library\\bin\\a.dll".data, "E:\\env\\Library\\bin\\a.dll".data, true)] ∧
     (HandlePostBuild asciiPlatform selfCopyWorld orderId selfCopyArgs demoEnv false
        false).fs.read "E:\\env\\Library\\bin\\a.dll".data = some []) ∧
    ((HandlePostBuild asciiPlatform selfCopyWorld orderId
        ["build".data, "-o".data, "e:\\env\\library\\bin\\app.exe".data] demoEnv false
        false).copies =
      [("a.dll".data, "E:\\env\\Library\\bin\\a.dll".data, "e:\\env\\library\\bin\\a.dll".data, true)] ∧
     selfCopyWorld.fs.read "E:\\env\\Library\\bin\\a.dll".data = some [1, 2, 3] ∧
     (HandlePostBuild asciiPlatform selfCopyWorld orderId
        ["build".data, "-o".data, "e:\\env\\library\\bin\\app.exe".data] demoEnv false
        false).fs.read "E:\\env\\Library\\bin\\a.dll".data = some []) := by
  decide

/-- The scenario of the specification: with `foo.dll` in both search
directories and the build output elsewhere, the copy is the file of the first. -/
theorem copy_takes_first_search_directory :
    (HandlePostBuild asciiPlatform priorityWorld orderId [] demoEnv false false).copies =
      [("foo.dll".data, "E:\\env\\Library\\bin\\foo.dll".data, "C:\\app\\foo.dll".data, true)] ∧
    (HandlePostBuild asciiPlatform priorityWorld orderId [] demoEnv false false).fs.read
      "C:\\app\\foo.dll".data = some [1] := by
  decide

/-! ## What the copy phase writes -/

theorem FS.read_write (fs : FS) (p q : Str) (c : Content) :
    (fs.write p c).read q = if fs.key p = fs.key q then some c else fs.read q := rfl

theorem copyFile_key (w : World) (fs : FS) (src dst : Str) :
    (copyFile w fs src dst).1.key = fs.key := by
  unfold copyFile
  split
  · rfl
  · split
    · rfl
    · split
      · rfl
      · simp only
        split
        · rfl
        · split <;> rfl

theorem copyFile_read_other (w : World) (fs : FS) (src dst path : Str)
    (h : fs.key path ≠ fs.key dst) :
    (copyFile w fs src dst).1.read path = fs.read path := by
  have hne : ¬ fs.key dst = fs.key path := fun e => h e.symm
  have hw : ∀ c1 c2, ((fs.write dst c1).write dst c2).read path = fs.read path := by
    intro c1 c2
    rw [FS.read_write, FS.read_write]
    have hk : (fs.write dst c1).key = fs.key := rfl
    rw [hk, if_neg hne, if_neg hne]
  unfold copyFile
  split
  · rfl
  · split
    · rfl
    · split
      · rfl
      · simp only
        split
        · exact hw _ _
        · split <;> exact hw _ _

theorem copyFile_read_dst (w : World) (fs : FS) (src dst : Str)
    (hne : fs.key src ≠ fs.key dst) (hok : (copyFile w fs src dst).2 = true) :
    (copyFile w fs src dst).1.read dst = fs.read src := by
  have hne' : ¬ fs.key dst = fs.key src := fun e => hne e.symm
  have hw : ∀ c1 c2, ((fs.write dst c1).write dst c2).read dst = some c2 := by
    intro c1 c2
    rw [FS.read_write]
    have hk : (fs.write dst c1).key = fs.key := rfl
    rw [hk, if_pos rfl]
  unfold copyFile at hok ⊢
  split
  · rename_i h; rw [h] at hok; simp at hok
  · rename_i data h
    rw [h] at hok
    simp only at hok
    split
    · rename_i h1; rw [if_pos h1] at hok; simp at hok
    · rename_i h1
      rw [if_neg h1] at hok
      split
      · rename_i h2; rw [if_pos h2] at hok; simp at hok
      · rename_i h2
        rw [if_neg h2] at hok
        simp only at hok ⊢
        have hdata : ((fs.write dst []).read src).getD [] = data := by
          rw [FS.read_write, if_neg hne', h]; rfl
        rw [hdata] at hok ⊢
        split
        · rw [hw, h]
        · rename_i n hn
          rw [hn] at hok
          simp only at hok
          split
          · rw [hw, h]
          · rename_i hlen; rw [if_neg hlen] at hok; simp at hok

theorem copyOne_key (P : Platform) (w : World) (destDir dll : Str) (isQuiet : Bool)
    (c : Copying) (searchPaths : List Str) :
    (copyOne P w destDir dll isQuiet c searchPaths).1.fs.key = c.fs.key := by
  induction searchPaths with
  | nil => unfold copyOne; split <;> rfl
  | cons p rest ih =>
    unfold copyOne
    simp only
    split
    · exact copyFile_key w c.fs _ _
    · exact ih

theorem copyOne_read_other (P : Platform) (w : World) (destDir dll : Str) (isQuiet : Bool)
    (c : Copying) (searchPaths : List Str) (path : Str)
    (h : c.fs.key path ≠ c.fs.key (P.join [destDir, dll])) :
    (copyOne P w destDir dll isQuiet c searchPaths).1.fs.read path = c.fs.read path := by
  induction searchPaths with
  | nil => unfold copyOne; split <;> rfl
  | cons p rest ih =>
    unfold copyOne
    simp only
    split
    · exact copyFile_read_other w c.fs _ _ path h
    · exact ih

theorem findDLL_eq_join (P : Platform) (fs : FS) (searchPaths : List Str) (dll : Str)
    (h : findDLL P fs searchPaths dll ≠ []) :
    ∃ p ∈ searchPaths, findDLL P fs searchPaths dll = P.join [p, dll] := by
  induction searchPaths with
  | nil => exact absurd rfl h
  | cons p rest ih =>
    unfold findDLL at h ⊢
    split
    · exact ⟨p, List.mem_cons_self _ _, rfl⟩
    · rename_i hs
      rw [if_neg hs] at h
      obtain ⟨q, hq, he⟩ := ih h
      exact ⟨q, List.mem_cons_of_mem _ hq, he⟩

theorem copyOne_read_dst (P : Platform) (w : World) (fs0 : FS) (destDir dll : Str)
    (isQuiet : Bool) (c : Copying) (searchPaths : List Str) (hk : c.fs.key = fs0.key)
    (hstat : ∀ p ∈ searchPaths, c.fs.read (P.join [p, dll]) = fs0.read (P.join [p, dll]))
    (hfound : findDLL P fs0 searchPaths dll ≠ [])
    (hne : fs0.key (findDLL P fs0 searchPaths dll) ≠ fs0.key (P.join [destDir, dll]))
    (hok : (copyOne P w destDir dll isQuiet c searchPaths).2 = true) :
    (copyOne P w destDir dll isQuiet c searchPaths).1.fs.read (P.join [destDir, dll]) =
      fs0.read (findDLL P fs0 searchPaths dll) := by
  induction searchPaths with
  | nil => exact absurd rfl hfound
  | cons p rest ih =>
    have hp := hstat p (List.mem_cons_self _ _)
    have hs : c.fs.stat (P.join [p, dll]) = fs0.stat (P.join [p, dll]) := by
      unfold FS.stat; rw [hp]
    unfold copyOne at hok ⊢
    unfold findDLL at hfound hne ⊢
    simp only at hok ⊢
    by_cases h0 : fs0.stat (P.join [p, dll]) = true
    · rw [if_pos h0] at hne ⊢
      rw [if_pos (hs.trans h0)] at hok ⊢
      simp only at hok ⊢
      rw [copyFile_read_dst w c.fs _ _ (by rw [hk]; exact hne) hok, hp]
    · rw [if_neg h0] at hfound hne ⊢
      have h1 : ¬ c.fs.stat (P.join [p, dll]) = true := fun e => h0 (hs.symm.trans e)
      rw [if_neg h1] at hok ⊢
      exact ih (fun q hq => hstat q (List.mem_cons_of_mem _ hq)) hfound hne hok

theorem copyAll_key (P : Platform) (w : World) (searchPaths : List Str)
    (destDir : Str) (isQuiet : Bool) (names : List Str) (c : Copying) :
    (copyAll P w searchPaths destDir isQuiet c names).1.fs.key = c.fs.key := by
  induction names generalizing c with
  | nil => rfl
  | cons dll rest ih =>
    unfold copyAll
    simp only
    split
    · rw [ih, copyOne_key]
    · exact copyOne_key P w destDir dll isQuiet c searchPaths

theorem copyAll_read_other (P : Platform) (w : World) (searchPaths : List Str)
    (destDir : Str) (isQuiet : Bool) (names : List Str) (c : Copying) (path : Str)
    (h : ∀ d ∈ names, c.fs.key path ≠ c.fs.key (P.join [destDir, d])) :
    (copyAll P w searchPaths destDir isQuiet c names).1.fs.read path = c.fs.read path := by
  induction names generalizing c with
  | nil => rfl
  | cons dll rest ih =>
    have h1 := copyOne_read_other P w destDir dll isQuiet c searchPaths path
      (h dll (List.mem_cons_self _ _))
    unfold copyAll
    simp only
    split
    · rw [ih _ (fun d hd => by
        rw [copyOne_key]; exact h d (List.mem_cons_of_mem _ hd)), h1]
    · exact h1

theorem copyAll_read_dst (P : Platform) (w : World) (fs0 : FS) (searchPaths : List Str)
    (destDir : Str) (isQuiet : Bool) (R : List Str)
    (hsep : ∀ d ∈ R, ∀ d' ∈ R, ∀ p ∈ searchPaths,
      fs0.key (P.join [destDir, d]) ≠ fs0.key (P.join [p, d']))
    (hinj : ∀ d ∈ R, ∀ d' ∈ R,
      fs0.key (P.join [destDir, d]) = fs0.key (P.join [destDir, d']) → d = d')
    (names : List Str) (hsub : ∀ d ∈ names, d ∈ R) (c : Copying) (hk : c.fs.key = fs0.key)
    (hsrc : ∀ d ∈ R, ∀ p ∈ searchPaths, c.fs.read (P.join [p, d]) = fs0.read (P.join [p, d]))
    (hok : (copyAll P w searchPaths destDir isQuiet c names).2 = none) :
    ∀ d ∈ names, findDLL P fs0 searchPaths d ≠ [] →
      (copyAll P w searchPaths destDir isQuiet c names).1.fs.read (P.join [destDir, d]) =
        fs0.read (findDLL P fs0 searchPaths d) := by
  induction names generalizing c with
  | nil => intro d hd; cases hd
  | cons dll rest ih =>
    have hdll : dll ∈ R := hsub dll (List.mem_cons_self _ _)
    have hrest : ∀ d ∈ rest, d ∈ R := fun d hd => hsub d (List.mem_cons_of_mem _ hd)
    have hk1 : (copyOne P w destDir dll isQuiet c searchPaths).1.fs.key = fs0.key := by
      rw [copyOne_key, hk]
    unfold copyAll at hok ⊢
    simp only at hok ⊢
    by_cases h1 : (copyOne P w destDir dll isQuiet c searchPaths).2 = true
    · rw [if_pos h1] at hok ⊢
      have hsrc1 : ∀ d ∈ R, ∀ p ∈ searchPaths,
          (copyOne P w destDir dll isQuiet c searchPaths).1.fs.read (P.join [p, d]) =
            fs0.read (P.join [p, d]) := by
        intro d hd p hp
        rw [copyOne_read_other P w destDir dll isQuiet c searchPaths _
          (by rw [hk]; exact fun e => hsep dll hdll d hd p hp e.symm)]
        exact hsrc d hd p hp
      have ih' := ih hrest _ hk1 hsrc1 hok
      intro d hd hf
      by_cases hmem : d ∈ rest
      · exact ih' d hmem hf
      · have hd' : d = dll := by
          rcases List.mem_cons.mp hd with h | h
          · exact h
          · exact absurd h hmem
        subst hd'
        rw [copyAll_read_other P w searchPaths destDir isQuiet rest _ _
          (fun d' hd' => by
            rw [hk1]
            exact fun e => hmem ((hinj d hdll d' (hrest d' hd') e) ▸ hd'))]
        obtain ⟨q, hq, he⟩ := findDLL_eq_join P fs0 searchPaths d hf
        exact copyOne_read_dst P w fs0 destDir d isQuiet c searchPaths hk
          (fun p hp => hsrc d hdll p hp) hf
          (fun e => hsep d hdll d hdll q hq (by rw [← e, he])) h1
    · rw [if_neg h1] at hok
      cases hok

/-- C9 amended: a call changes no file other than the destinations
`filepath.Join(destDir, dll)` of the names of its Dependency Set: every path
that names none of those files reads after the call as before, in particular
every path in a search directory that names none of them.  When no destination
is the file of a name of the Dependency Set in a search directory, distinct
names have distinct destination files and the call returns nil, the destination
of every name found in a search directory holds the content that the file found
for it in the first such directory had before the call. -/
theorem copy_phase_writes_only_destinations (P : Platform) (w : World) (o : MapOrder)
    (args : List Str) (cgoEnv : CGOEnvironment) (isQuiet skipCopy : Bool) :
    (∀ path,
      (∀ d ∈ (HandlePostBuild P w o args cgoEnv isQuiet skipCopy).allRequiredDLLs,
        w.fs.key path ≠ w.fs.key (P.join [P.dir (outputPathOf P w args), d])) →
      (HandlePostBuild P w o args cgoEnv isQuiet skipCopy).fs.read path = w.fs.read path) ∧
    (∀ p ∈ searchPathsOf P cgoEnv, ∀ name : Str,
      (∀ d ∈ (HandlePostBuild P w o args cgoEnv isQuiet skipCopy).allRequiredDLLs,
        w.fs.key (P.join [p, name]) ≠ w.fs.key (P.join [P.dir (outputPathOf P w args), d])) →
      (HandlePostBuild P w o args cgoEnv isQuiet skipCopy).fs.read (P.join [p, name]) =
        w.fs.read (P.join [p, name])) ∧
    ((∀ d ∈ (HandlePostBuild P w o args cgoEnv isQuiet skipCopy).allRequiredDLLs,
        ∀ d' ∈ (HandlePostBuild P w o args cgoEnv isQuiet skipCopy).allRequiredDLLs,
        ∀ p ∈ searchPathsOf P cgoEnv,
        w.fs.key (P.join [P.dir (outputPathOf P w args), d]) ≠ w.fs.key (P.join [p, d'])) →
      (∀ d ∈ (HandlePostBuild P w o args cgoEnv isQuiet skipCopy).allRequiredDLLs,
        ∀ d' ∈ (HandlePostBuild P w o args cgoEnv isQuiet skipCopy).allRequiredDLLs,
        w.fs.key (P.join [P.dir (outputPathOf P w args), d]) =
          w.fs.key (P.join [P.dir (outputPathOf P w args), d']) → d = d') →
      (HandlePostBuild P w o args cgoEnv isQuiet skipCopy).err = none →
      ∀ d ∈ (HandlePostBuild P w o args cgoEnv isQuiet skipCopy).allRequiredDLLs,
        findDLL P w.fs (searchPathsOf P cgoEnv) d ≠ [] →
        (HandlePostBuild P w o args cgoEnv isQuiet skipCopy).fs.read
            (P.join [P.dir (outputPathOf P w args), d]) =
          w.fs.read (findDLL P w.fs (searchPathsOf P cgoEnv) d)) := by
  have hframe : ∀ path,
      (∀ d ∈ (HandlePostBuild P w o args cgoEnv isQuiet skipCopy).allRequiredDLLs,
        w.fs.key path ≠ w.fs.key (P.join [P.dir (outputPathOf P w args), d])) →
      (HandlePostBuild P w o args cgoEnv isQuiet skipCopy).fs.read path = w.fs.read path := by
    intro path hpath
    cases skipCopy with
    | true => rw [HandlePostBuild_skip]
    | false =>
      cases hroot : GetDependencies P w (outputPathOf P w args) (objdumpPathOf P cgoEnv) with
      | error e => rw [HandlePostBuild_of_root_error P w o args cgoEnv isQuiet e hroot]
      | ok ds =>
        obtain ⟨c, names, _, hfs, hperm, _, _, hrfs⟩ :=
          HandlePostBuild_copy_phase P w o args cgoEnv isQuiet ds hroot
        rw [hrfs, copyAll_read_other P w _ _ isQuiet names c path
          (fun d hd => by rw [hfs]; exact hpath d (hperm.mem_iff.mp hd)), hfs]
  refine ⟨hframe, fun p _ name hname => hframe _ hname, fun hsep hinj hnil d hd hf => ?_⟩
  cases skipCopy with
  | true => rw [HandlePostBuild_skip] at hd; cases hd
  | false =>
    cases hroot : GetDependencies P w (outputPathOf P w args) (objdumpPathOf P cgoEnv) with
    | error e =>
      rw [HandlePostBuild_of_root_error P w o args cgoEnv isQuiet e hroot] at hd; cases hd
    | ok ds =>
      obtain ⟨c, names, _, hfs, hperm, herr, _, hrfs⟩ :=
        HandlePostBuild_copy_phase P w o args cgoEnv isQuiet ds hroot
      rw [hrfs]
      exact copyAll_read_dst P w w.fs (searchPathsOf P cgoEnv) (P.dir (outputPathOf P w args))
        isQuiet (HandlePostBuild P w o args cgoEnv isQuiet false).allRequiredDLLs
        hsep hinj names (fun a ha => hperm.mem_iff.mp ha) c (by rw [hfs])
        (fun a _ q _ => by rw [hfs]) (herr ▸ hnil) d (hperm.mem_iff.mpr hd) hf

theorem asciiPlatform_join_head (c : Char) (ps name : Str) :
    (asciiPlatform.join [c :: ps, name]).head? = some c := by
  cases name with
  | nil => simp [asciiPlatform, List.intercalate, List.intersperse]
  | cons n ns => simp [asciiPlatform, List.intercalate, List.intersperse]

/-- Witness of C9 amended: the build output is in `C:\app`, `foo.dll` is in both
search directories; both files there are unchanged and `C:\app\foo.dll` holds
the content of the one in the first search directory. -/
theorem copy_phase_writes_only_destinations_witness :
    (HandlePostBuild asciiPlatform priorityWorld orderId [] demoEnv false
      false).allRequiredDLLs = ["foo.dll".data] ∧
    asciiPlatform.join [asciiPlatform.dir (outputPathOf asciiPlatform priorityWorld []),
      "foo.dll".data] = "C:\\app\\foo.dll".data ∧
    findDLL asciiPlatform priorityWorld.fs (searchPathsOf asciiPlatform demoEnv) "foo.dll".data =
      "E:\\env\\Library\\bin\\foo.dll".data ∧
    priorityWorld.fs.read "E:\\env\\Library\\bin\\foo.dll".data = some [1] ∧
    (HandlePostBuild asciiPlatform priorityWorld orderId [] demoEnv false false).fs.read
      "E:\\env\\Library\\bin\\foo.dll".data = some [1] ∧
    (HandlePostBuild asciiPlatform priorityWorld orderId [] demoEnv false false).fs.read
      "E:\\tool\\foo.dll".data = some [2] ∧
    (HandlePostBuild asciiPlatform priorityWorld orderId [] demoEnv false false).fs.read
        (asciiPlatform.join [asciiPlatform.dir (outputPathOf asciiPlatform priorityWorld []),
          "foo.dll".data]) =
      priorityWorld.fs.read
        (findDLL asciiPlatform priorityWorld.fs (searchPathsOf asciiPlatform demoEnv)
          "foo.dll".data) := by
  have hR : (HandlePostBuild asciiPlatform priorityWorld orderId [] demoEnv false
      false).allRequiredDLLs = ["foo.dll".data] := by decide
  have hsp : searchPathsOf asciiPlatform demoEnv =
      ["E:\\env\\Library\\bin".data, "E:\\tool".data] := by decide
  refine ⟨hR, by decide, by decide, by decide, by decide, by decide,
    (copy_phase_writes_only_destinations asciiPlatform priorityWorld orderId [] demoEnv false
      false).2.2 ?_ ?_ (by decide) "foo.dll".data (by decide) (by decide)⟩
  · intro d hd d' hd' p hp
    rw [hR] at hd hd'
    rw [hsp] at hp
    simp only [List.mem_cons, List.mem_singleton, List.not_mem_nil, or_false] at hd hd' hp
    subst hd hd'
    rcases hp with rfl | rfl <;> decide
  · intro d hd d' hd' _
    rw [hR] at hd hd'
    simp only [List.mem_cons, List.mem_singleton, List.not_mem_nil, or_false] at hd hd'
    rw [hd, hd']

/-! ## The path of the build output -/

theorem outputFlag_first (pre : List Str) (v : Str) (post : List Str)
    (hpre : "-o".data ∉ pre) : outputFlag (pre ++ "-o".data :: v :: post) = v := by
  induction pre with
  | nil => simp [outputFlag]
  | cons a pre ih =>
    have ha : a ≠ "-o".data := fun h => hpre (by simp [h])
    have hrest : "-o".data ∉ pre := fun h => hpre (List.mem_cons_of_mem _ h)
    cases pre with
    | nil =>
      simp only [List.cons_append, List.nil_append] at ih ⊢
      unfold outputFlag
      rw [if_neg ha]
      exact ih hrest
    | cons b pre =>
      simp only [List.cons_append] at ih ⊢
      unfold outputFlag
      rw [if_neg ha]
      exact ih hrest

theorem outputFlag_none (args : List Str) (h : "-o".data ∉ args.dropLast) :
    outputFlag args = [] := by
  induction args with
  | nil => rfl
  | cons a rest ih =>
    cases rest with
    | nil => rfl
    | cons b rest =>
      have ha : a ≠ "-o".data := fun e => h (by simp [List.dropLast, e])
      have hrest : "-o".data ∉ (b :: rest).dropLast := fun e =>
        h (by simp only [List.dropLast]; exact List.mem_cons_of_mem _ e)
      unfold outputFlag
      rw [if_neg ha]
      exact ih hrest

theorem outputPathOf_default (P : Platform) (w : World) (args : List Str)
    (hcwd : P.isAbs w.cwd = true) (hjoin : JoinKeepsAbs P) (h : outputFlag args = []) :
    outputPathOf P w args = P.join [w.cwd, P.base w.cwd ++ ".exe".data] := by
  unfold outputPathOf
  simp only [h, if_true]
  rw [hjoin w.cwd _ hcwd]
  rfl

theorem outputPathOf_flag (P : Platform) (w : World) (args : List Str)
    (h : outputFlag args ≠ []) :
    outputPathOf P w args =
      if P.isAbs (outputFlag args) = true then outputFlag args
      else P.join [w.cwd, outputFlag args] := by
  unfold outputPathOf
  simp only [if_neg h]
  cases P.isAbs (outputFlag args) <;> rfl

theorem step_inspected_extends (P : Platform) (w : World) (o : MapOrder) (objdumpPath : Str)
    (searchPaths : List Str) (isQuiet : Bool) (s : Traversal) :
    ∃ extra, (step P w o objdumpPath searchPaths isQuiet s).inspected = s.inspected ++ extra := by
  cases hq : s.dllsToProcess with
  | nil =>
    refine ⟨[], ?_⟩
    unfold step; rw [hq]; simp
  | cons dll rest =>
    obtain ⟨_, _, _, _, _, hc⟩ := step_spec P w o objdumpPath searchPaths isQuiet s dll rest hq
    rcases hc with ⟨_, _, _, hi⟩ | ⟨_, _, hi, _⟩
    · exact ⟨[], by rw [hi]; simp⟩
    · exact ⟨_, hi⟩

theorem loop_inspected_extends (P : Platform) (w : World) (o : MapOrder) (objdumpPath : Str)
    (searchPaths : List Str) (isQuiet : Bool) (n : Nat) (s : Traversal) :
    ∃ extra,
      (loop P w o objdumpPath searchPaths isQuiet n s).inspected = s.inspected ++ extra := by
  induction n generalizing s with
  | zero => exact ⟨[], by simp [loop]⟩
  | succ n ih =>
    unfold loop
    split
    · obtain ⟨e1, h1⟩ := step_inspected_extends P w o objdumpPath searchPaths isQuiet s
      obtain ⟨e2, h2⟩ := ih (step P w o objdumpPath searchPaths isQuiet s)
      exact ⟨e1 ++ e2, by rw [h2, h1, List.append_assoc]⟩
    · exact ⟨[], by simp⟩

theorem HandlePostBuild_first_inspection (P : Platform) (w : World) (o : MapOrder)
    (args : List Str) (cgoEnv : CGOEnvironment) (isQuiet : Bool) :
    (HandlePostBuild P w o args cgoEnv isQuiet false).inspected.head? =
      some (none, outputPathOf P w args) := by
  cases hroot : GetDependencies P w (outputPathOf P w args) (objdumpPathOf P cgoEnv) with
  | error e => rw [HandlePostBuild_of_root_error P w o args cgoEnv isQuiet e hroot]; rfl
  | ok ds =>
    rw [(HandlePostBuild_of_root_ok P w o args cgoEnv isQuiet ds hroot).2]
    unfold traverse
    obtain ⟨extra, h⟩ := loop_inspected_extends P w o (objdumpPathOf P cgoEnv)
      (searchPathsOf P cgoEnv) isQuiet
      (iterationBound P w (objdumpPathOf P cgoEnv) (outputPathOf P w args))
      (seed o (outputPathOf P w args) ds)
    obtain ⟨_, _, _, _, _, h5, _⟩ := addDeps_spec
      { dllsToProcess := [], allRequiredDLLs := [], processedDLLs := [], ranges := 1,
        inspected := [(none, outputPathOf P w args)], logs := [] } (o.enum 0 ds)
    have hseed : (seed o (outputPathOf P w args) ds).inspected =
        [(none, outputPathOf P w args)] := h5
    simp only
    rw [h, hseed]
    rfl

theorem asciiPlatform_joinKeepsAbs : JoinKeepsAbs asciiPlatform := by
  intro a b h
  rcases a with _ | ⟨c, _ | ⟨c1, _ | ⟨c2, t⟩⟩⟩
  · simp [asciiPlatform] at h
  · simp [asciiPlatform] at h
  · simp [asciiPlatform] at h
  · have h' : c1 = ':' ∧ c2 = '\\' := by simpa [asciiPlatform] using h
    obtain ⟨rfl, rfl⟩ := h'
    cases b with
    | nil => simp [asciiPlatform, List.intercalate, List.intersperse]
    | cons n ns => simp [asciiPlatform, List.intercalate, List.intersperse]

/-- C11, as the claim states it, fails: in `build -o "" .` the flag `-o` is
followed by the empty string, which is not absolute; the path is not the empty
string joined onto the current directory `C:\app` but the default
`C:\app\app.exe`. -/
theorem empty_output_value_uses_default :
    asciiPlatform.isAbs [] = false ∧
    asciiPlatform.join [chainWorld.cwd, []] = "C:\\app".data ∧
    outputPathOf asciiPlatform chainWorld ["build".data, "-o".data, [], ".".data] =
      "C:\\app\\app.exe".data ∧
    ¬ OutputFlagDecides asciiPlatform chainWorld ["build".data, "-o".data, [], ".".data] := by
  refine ⟨by decide, by decide, by decide, fun h => ?_⟩
  have h1 := h ["build".data] [] [".".data] (by decide) rfl
  exact absurd h1 (by decide)

/-- C11 amended: for an absolute current directory (and `filepath.Join` keeping
an absolute first element absolute), `HandlePostBuild` inspects first the build
output path, which is absolute; it is `<cwd>/<basename(cwd)>.exe` when no `-o`
has a following argument or when the argument after the first such `-o` is the
empty string, and otherwise it is the non-empty argument after the first such
`-o` if that is absolute, else that argument joined onto the current directory. -/
theorem output_path_absolute (P : Platform) (w : World) (o : MapOrder) (args : List Str)
    (cgoEnv : CGOEnvironment) (isQuiet : Bool)
    (hcwd : P.isAbs w.cwd = true) (hjoin : JoinKeepsAbs P) :
    (HandlePostBuild P w o args cgoEnv isQuiet false).inspected.head? =
      some (none, outputPathOf P w args) ∧
    P.isAbs (outputPathOf P w args) = true ∧
    ("-o".data ∉ args.dropLast →
      outputPathOf P w args = P.join [w.cwd, P.base w.cwd ++ ".exe".data]) ∧
    (∀ pre v post, "-o".data ∉ pre → args = pre ++ "-o".data :: v :: post →
      (v = [] → outputPathOf P w args = P.join [w.cwd, P.base w.cwd ++ ".exe".data]) ∧
      (v ≠ [] →
        outputPathOf P w args = if P.isAbs v = true then v else P.join [w.cwd, v])) := by
  refine ⟨HandlePostBuild_first_inspection P w o args cgoEnv isQuiet, ?_, fun h => ?_,
    fun pre v post hpre hargs => ?_⟩
  · by_cases h : outputFlag args = []
    · rw [outputPathOf_default P w args hcwd hjoin h]
      exact hjoin _ _ hcwd
    · rw [outputPathOf_flag P w args h]
      by_cases habs : P.isAbs (outputFlag args) = true
      · rw [if_pos habs]; exact habs
      · rw [if_neg habs]; exact hjoin _ _ hcwd
  · exact outputPathOf_default P w args hcwd hjoin (outputFlag_none args h)
  · have hv : outputFlag args = v := by rw [hargs]; exact outputFlag_first pre v post hpre
    refine ⟨fun h0 => ?_, fun h0 => ?_⟩
    · exact outputPathOf_default P w args hcwd hjoin (by rw [hv, h0])
    · rw [outputPathOf_flag P w args (by rw [hv]; exact h0), hv]

/-- Witness of C11 amended, in `C:\app`: `build .` gives `C:\app\app.exe`,
`build -o out\x.exe .` gives `C:\app\out\x.exe`, `build -o D:\bin\x.exe .` gives
`D:\bin\x.exe`, and with two flags the first decides. -/
theorem output_path_absolute_witness :
    asciiPlatform.isAbs chainWorld.cwd = true ∧
    outputPathOf asciiPlatform chainWorld ["build".data, ".".data] = "C:\\app\\app.exe".data ∧
    outputPathOf asciiPlatform chainWorld ["build".data, "-o".data, "out\\x.exe".data, ".".data] =
      "C:\\app\\out\\x.exe".data ∧
    outputPathOf asciiPlatform chainWorld
      ["build".data, "-o".data, "D:\\bin\\x.exe".data, "-o".data, "y.exe".data] =
      "D:\\bin\\x.exe".data ∧
    outputPathOf asciiPlatform chainWorld ["build".data, ".".data, "-o".data] =
      "C:\\app\\app.exe".data ∧
    asciiPlatform.isAbs (outputPathOf asciiPlatform chainWorld
      ["build".data, "-o".data, "out\\x.exe".data, ".".data]) = true :=
  ⟨by decide, by decide, by decide, by decide, by decide,
    (output_path_absolute asciiPlatform chainWorld orderId
      ["build".data, "-o".data, "out\\x.exe".data, ".".data] demoEnv false (by decide)
      asciiPlatform_joinKeepsAbs).2.1⟩

end Ezgo
